import Mathlib

set_option maxHeartbeats 1000000

/- Verification of the dense matrix-multiplication kernels of the
   Matrix_Computations repository: the six naive loop orderings, the blocked
   (tiled) GEMM kernel, the gaxpy variants, and the matrix utilities.
   Matrices are embedded as row-major flat buffers of rationals, standing for
   the C/C++ double buffers in exact arithmetic.  C/C++ `for` loops over a
   range with unit step are embedded as `List.foldl` over
   `List.range`/`List.range'`; the tile loops of the blocked kernels, which
   step by `block_size`, are embedded with an explicit fuel parameter
   (`forLoopM`) so that their termination behaviour is itself a theorem
   rather than an assumption. -/

namespace MC

/-- Dense row-major matrix: the `Matrix` struct of matrix_types.h (fields
`rows`, `cols`, `data` with `MAT(m,i,j) = data[i*cols+j]`) and the `Matrix`
class of the C++ matrix_utils.h (fields `m`, `n`, `data`, with
`operator()(i,j) = data[i*n+j]`).  The buffer is a flat list; element (i,j)
lives at offset `i * n + j`. -/
structure Matrix where
  m : ℕ
  n : ℕ
  data : List ℚ
deriving DecidableEq

/-- Row-major element read, `data[i * n + j]` (out-of-buffer reads default
to 0; the kernels are proved never to perform them under the dimension
preconditions). -/
def Matrix.get (A : Matrix) (i j : ℕ) : ℚ :=
  A.data.getD (i * A.n + j) 0

/-- Row-major element write, `data[i * n + j] = v` (writes past the buffer
end are dropped, as `List.set` is). -/
def Matrix.set (A : Matrix) (i j : ℕ) (v : ℚ) : Matrix :=
  ⟨A.m, A.n, A.data.set (i * A.n + j) v⟩

/-- The `rows` field of the C `Matrix` struct (the C++ class calls it `m`). -/
def Matrix.rows (A : Matrix) : ℕ := A.m

/-- The `cols` field of the C `Matrix` struct (the C++ class calls it `n`). -/
def Matrix.cols (A : Matrix) : ℕ := A.n

/-- Well-formedness: the buffer length equals `rows * cols`, the invariant
stated by the spec's data model. -/
def Matrix.wf (A : Matrix) : Prop := A.data.length = A.m * A.n

/-- The C++ `Matrix(rows, cols)` constructor: `data(rows * cols)` is a
value-initialized `std::vector<double>`, i.e. `rows * cols` zeros. -/
def Matrix.init (rows cols : ℕ) : Matrix :=
  ⟨rows, cols, List.replicate (rows * cols) 0⟩

/-- `create_matrix` from split_file/matrix_utils.c: `calloc(rows * cols,
sizeof(double))` yields a zero-filled buffer of length `rows * cols`. -/
def create_matrix (rows cols : ℕ) : Matrix :=
  ⟨rows, cols, List.replicate (rows * cols) 0⟩

/- ================= the six C++ gemm loop orderings ====================
   From gemm_orderings (part_001); each performs
   `C(i,j) += A(i,k) * B(k,j)` over the same index triples in a different
   nesting order.  Loop bounds as in the source: i < A.m, k < A.n, j < B.n. -/

/-- `gemm_ijk` (dot-product formulation) from the gemm orderings file. -/
def gemm_ijk (A B C : Matrix) : Matrix :=
  (List.range A.m).foldl (fun C i =>
    (List.range B.n).foldl (fun C j =>
      (List.range A.n).foldl (fun C k =>
        C.set i j (C.get i j + A.get i k * B.get k j)) C) C) C

/-- `gemm_jik` from the gemm orderings file. -/
def gemm_jik (A B C : Matrix) : Matrix :=
  (List.range B.n).foldl (fun C j =>
    (List.range A.m).foldl (fun C i =>
      (List.range A.n).foldl (fun C k =>
        C.set i j (C.get i j + A.get i k * B.get k j)) C) C) C

/-- `gemm_ikj` (row-oriented gaxpy formulation) from the gemm orderings file
and, identically, from blocked_gemm.cpp. -/
def gemm_ikj (A B C : Matrix) : Matrix :=
  (List.range A.m).foldl (fun C i =>
    (List.range A.n).foldl (fun C k =>
      (List.range B.n).foldl (fun C j =>
        C.set i j (C.get i j + A.get i k * B.get k j)) C) C) C

/-- `gemm_jki` (column-oriented gaxpy formulation) from the gemm orderings
file. -/
def gemm_jki (A B C : Matrix) : Matrix :=
  (List.range B.n).foldl (fun C j =>
    (List.range A.n).foldl (fun C k =>
      (List.range A.m).foldl (fun C i =>
        C.set i j (C.get i j + A.get i k * B.get k j)) C) C) C

/-- `gemm_kij` (row-oriented outer-product formulation) from the gemm
orderings file. -/
def gemm_kij (A B C : Matrix) : Matrix :=
  (List.range A.n).foldl (fun C k =>
    (List.range A.m).foldl (fun C i =>
      (List.range B.n).foldl (fun C j =>
        C.set i j (C.get i j + A.get i k * B.get k j)) C) C) C

/-- `gemm_kji` (column-oriented outer-product formulation) from the gemm
orderings file. -/
def gemm_kji (A B C : Matrix) : Matrix :=
  (List.range A.n).foldl (fun C k =>
    (List.range B.n).foldl (fun C j =>
      (List.range A.m).foldl (fun C i =>
        C.set i j (C.get i j + A.get i k * B.get k j)) C) C) C

/- ================= the C matmul variants (matmul_basic.c) ============= -/

/-- `inner_dot_product` from matmul_basic.c. -/
def inner_dot_product (C A B : Matrix) (i j r : ℕ) : Matrix :=
  (List.range r).foldl (fun C k =>
    C.set i j (C.get i j + A.get i k * B.get k j)) C

/-- `inner_saxpy_column` from matmul_basic.c (hoists `b_kj = B(k,j)`). -/
def inner_saxpy_column (C A B : Matrix) (j k m : ℕ) : Matrix :=
  let b_kj := B.get k j
  (List.range m).foldl (fun C i =>
    C.set i j (C.get i j + A.get i k * b_kj)) C

/-- `inner_saxpy_row` from matmul_basic.c (hoists `a_ik = A(i,k)`). -/
def inner_saxpy_row (C A B : Matrix) (i k n : ℕ) : Matrix :=
  let a_ik := A.get i k
  (List.range n).foldl (fun C j =>
    C.set i j (C.get i j + a_ik * B.get k j)) C

/-- `matmul_ijk` from matmul_basic.c. -/
def matmul_ijk (C A B : Matrix) : Matrix :=
  let m := A.rows; let r := A.cols; let n := B.cols
  (List.range m).foldl (fun C i =>
    (List.range n).foldl (fun C j =>
      inner_dot_product C A B i j r) C) C

/-- `matmul_jik` from matmul_basic.c. -/
def matmul_jik (C A B : Matrix) : Matrix :=
  let m := A.rows; let r := A.cols; let n := B.cols
  (List.range n).foldl (fun C j =>
    (List.range m).foldl (fun C i =>
      inner_dot_product C A B i j r) C) C

/-- `matmul_saxpy` from matmul_basic.c (jki ordering). -/
def matmul_saxpy (C A B : Matrix) : Matrix :=
  let m := A.rows; let r := A.cols; let n := B.cols
  (List.range n).foldl (fun C j =>
    (List.range r).foldl (fun C k =>
      inner_saxpy_column C A B j k m) C) C

/-- `matmul_ikj` from matmul_basic.c. -/
def matmul_ikj (C A B : Matrix) : Matrix :=
  let m := A.rows; let r := A.cols; let n := B.cols
  (List.range m).foldl (fun C i =>
    (List.range r).foldl (fun C k =>
      inner_saxpy_row C A B i k n) C) C

/-- `matmul_outer_product` from matmul_basic.c (kij ordering, inlined). -/
def matmul_outer_product (C A B : Matrix) : Matrix :=
  let m := A.rows; let r := A.cols; let n := B.cols
  (List.range r).foldl (fun C k =>
    (List.range m).foldl (fun C i =>
      (List.range n).foldl (fun C j =>
        C.set i j (C.get i j + A.get i k * B.get k j)) C) C) C

/-- `matmul_kij` from matmul_basic.c. -/
def matmul_kij (C A B : Matrix) : Matrix :=
  let m := A.rows; let r := A.cols; let n := B.cols
  (List.range r).foldl (fun C k =>
    (List.range m).foldl (fun C i =>
      inner_saxpy_row C A B i k n) C) C

/- ================= gaxpy variants ===================================== -/

/-- `gaxpy_row_oriented` from the gaxpy sources (part_005): `y[i] +=
A(i,j) * x[j]`, outer loop over rows. -/
def gaxpy_row_oriented (A : Matrix) (x y : List ℚ) : List ℚ :=
  (List.range A.m).foldl (fun y i =>
    (List.range A.n).foldl (fun y j =>
      y.set i (y.getD i 0 + A.get i j * x.getD j 0)) y) y

/-- `gaxpy_column_oriented` from the gaxpy sources (part_005): same update,
outer loop over columns. -/
def gaxpy_column_oriented (A : Matrix) (x y : List ℚ) : List ℚ :=
  (List.range A.n).foldl (fun y j =>
    (List.range A.m).foldl (fun y i =>
      y.set i (y.getD i 0 + A.get i j * x.getD j 0)) y) y

/-- `matrix_vector_mult` from split_file/level2_blas.c: `y[i] +=
MAT(A,i,j) * x[j]`, row-oriented. -/
def matrix_vector_mult (A : Matrix) (x y : List ℚ) : List ℚ :=
  (List.range A.rows).foldl (fun y i =>
    (List.range A.cols).foldl (fun y j =>
      y.set i (y.getD i 0 + A.get i j * x.getD j 0)) y) y

/- ================= random fill (matrix utilities) ===================== -/

/-- `int_random_matrix` from split_file/matrix_utils.c.  `rvals i` stands
for the value of `(double)rand() / RAND_MAX` at the i-th call (a number in
[0,1]).  Faithful to the source, the loop runs `for (i = 0; i < m->rows;
i++)` and assigns `m->data[i]`, i.e. only the first `rows` buffer cells. -/
def int_random_matrix (mtx : Matrix) (rvals : ℕ → ℚ) : Matrix :=
  ⟨mtx.m, mtx.n,
    (List.range mtx.rows).foldl (fun d i => d.set i (rvals i * 2 - 1)) mtx.data⟩

/-- `init_random_matrix` from the aggregate driver (part_011): the loop runs
over `m->rows * m->cols` linear indices and assigns every buffer cell. -/
def init_random_matrix (mtx : Matrix) (rvals : ℕ → ℚ) : Matrix :=
  ⟨mtx.m, mtx.n,
    (List.range (mtx.rows * mtx.cols)).foldl
      (fun d i => d.set i (rvals i * 2 - 1)) mtx.data⟩

/- ================= blocked kernel (fuel-based tile loops) ============= -/

/-- Semantics of a C `for (x = i; x < bound; x += step) body` loop whose body
may itself fail or run out of fuel: one unit of fuel is consumed per
iteration, `none` meaning the available fuel was exhausted before the loop
condition became false (for `step = 0` and `i < bound` this models the
infinite loop the C code performs). -/
def forLoopM {α : Type} (body : α → ℕ → Option α) :
    ℕ → ℕ → ℕ → ℕ → α → Option α
  | 0, i, bound, _step, acc => if i < bound then none else some acc
  | fuel + 1, i, bound, step, acc =>
    if i < bound then
      match body acc i with
      | none => none
      | some acc2 => forLoopM body fuel (i + step) bound step acc2
    else some acc

/-- `inner_block_inner_loop` from blocked_gemm.cpp: `for (j = jj; j < j_max;
j++) C(i,j) += A(i,k) * B(k,j)`. -/
def inner_block_inner_loop (A B C : Matrix) (i k jj j_max : ℕ) : Matrix :=
  (List.range' jj (j_max - jj)).foldl (fun C j =>
    C.set i j (C.get i j + A.get i k * B.get k j)) C

/-- `inner_block_middle_loop` from blocked_gemm.cpp. -/
def inner_block_middle_loop (A B C : Matrix) (i kk k_max j_max jj : ℕ) :
    Matrix :=
  (List.range' kk (k_max - kk)).foldl (fun C k =>
    inner_block_inner_loop A B C i k jj j_max) C

/-- `inner_block_outer_loop` from blocked_gemm.cpp. -/
def inner_block_outer_loop (A B C : Matrix) (ii kk jj i_max j_max k_max : ℕ) :
    Matrix :=
  (List.range' ii (i_max - ii)).foldl (fun C i =>
    inner_block_middle_loop A B C i kk k_max j_max jj) C

/-- `outer_block_inner_loop` from blocked_gemm.cpp: the `kk` tile loop,
stepping by `block_size`, clamping the tile bounds with `min` and invoking
the inner three loops on the tile. -/
def outer_block_inner_loop (A B C : Matrix)
    (ii jj block_size m n r fuel : ℕ) : Option Matrix :=
  forLoopM (fun C kk =>
      let i_max := min (ii + block_size) m
      let j_max := min (jj + block_size) n
      let k_max := min (kk + block_size) r
      some (inner_block_outer_loop A B C ii kk jj i_max j_max k_max))
    fuel 0 r block_size C

/-- `outer_block_middle_loop` from blocked_gemm.cpp: the `jj` tile loop. -/
def outer_block_middle_loop (A B C : Matrix)
    (ii block_size m n r fuel : ℕ) : Option Matrix :=
  forLoopM (fun C jj => outer_block_inner_loop A B C ii jj block_size m n r fuel)
    fuel 0 n block_size C

/-- `outer_block_outer_loop` from blocked_gemm.cpp: the `ii` tile loop. -/
def outer_block_outer_loop (A B C : Matrix)
    (block_size m n r fuel : ℕ) : Option Matrix :=
  forLoopM (fun C ii => outer_block_middle_loop A B C ii block_size m n r fuel)
    fuel 0 m block_size C

/-- `gemm_blocked` from blocked_gemm.cpp, with `m = A.m`, `n = B.n`,
`r = A.n`.  The extra `fuel` argument bounds the number of iterations each
tile loop may perform; the source performs no validation of `block_size`. -/
def gemm_blocked (A B C : Matrix) (block_size : ℕ) (fuel : ℕ) :
    Option Matrix :=
  outer_block_outer_loop A B C block_size A.m B.n A.n fuel

/-- `matmul_blocked` from split_file/matmul_optimized.c: the same tiling in
one function, with the ternary-operator clamps `(x + bs < d) ? x + bs : d`
and the hoisted `a_ik`. -/
def matmul_blocked (C A B : Matrix) (block_size : ℕ) (fuel : ℕ) :
    Option Matrix :=
  let m := A.rows; let r := A.cols; let n := B.cols
  forLoopM (fun C ii =>
      forLoopM (fun C jj =>
          forLoopM (fun C kk =>
              let i_end := if ii + block_size < m then ii + block_size else m
              let j_end := if jj + block_size < n then jj + block_size else n
              let k_end := if kk + block_size < r then kk + block_size else r
              some ((List.range' ii (i_end - ii)).foldl (fun C i =>
                (List.range' kk (k_end - kk)).foldl (fun C k =>
                  let a_ik := A.get i k
                  (List.range' jj (j_end - jj)).foldl (fun C j =>
                    C.set i j (C.get i j + a_ik * B.get k j)) C) C) C))
            fuel 0 r block_size C)
        fuel 0 n block_size C)
    fuel 0 m block_size C

/- ================= proof infrastructure =============================== -/

/-- The single multiply-accumulate update `C(i,j) += A(i,k) * B(k,j)`
performed by every kernel, indexed by the triple `(i, k, j)`. -/
def upd (A B C : Matrix) (t : ℕ × ℕ × ℕ) : Matrix :=
  C.set t.1 t.2.2 (C.get t.1 t.2.2 + A.get t.1 t.2.1 * B.get t.2.1 t.2.2)

@[simp] lemma Matrix.set_m (A : Matrix) (i j : ℕ) (v : ℚ) :
    (A.set i j v).m = A.m := rfl

@[simp] lemma Matrix.set_n (A : Matrix) (i j : ℕ) (v : ℚ) :
    (A.set i j v).n = A.n := rfl

@[simp] lemma Matrix.set_length (A : Matrix) (i j : ℕ) (v : ℚ) :
    (A.set i j v).data.length = A.data.length := by
  simp [Matrix.set]

@[simp] lemma upd_m (A B C : Matrix) (t : ℕ × ℕ × ℕ) : (upd A B C t).m = C.m :=
  rfl

@[simp] lemma upd_n (A B C : Matrix) (t : ℕ × ℕ × ℕ) : (upd A B C t).n = C.n :=
  rfl

@[simp] lemma upd_length (A B C : Matrix) (t : ℕ × ℕ × ℕ) :
    (upd A B C t).data.length = C.data.length := by
  simp [upd]

lemma getD_set_self (d : List ℚ) (p : ℕ) (v : ℚ) (hp : p < d.length) :
    (d.set p v).getD p 0 = v := by
  simp [List.getD_eq_getElem?_getD, List.getElem?_set_self, hp]

lemma getD_set_ne (d : List ℚ) (p q : ℕ) (v : ℚ) (h : p ≠ q) :
    (d.set p v).getD q 0 = d.getD q 0 := by
  simp [List.getD_eq_getElem?_getD, List.getElem?_set_ne h]

/-- Two read-modify-write additions into a flat buffer commute: they either
hit the same cell (order of the two additions is immaterial) or different
cells (the writes are independent). -/
lemma set_add_comm (d : List ℚ) (p p' : ℕ) (v v' : ℚ) :
    (d.set p (d.getD p 0 + v)).set p'
        ((d.set p (d.getD p 0 + v)).getD p' 0 + v')
      = (d.set p' (d.getD p' 0 + v')).set p
        ((d.set p' (d.getD p' 0 + v')).getD p 0 + v) := by
  rcases eq_or_ne p p' with h | h
  · subst h
    rcases Nat.lt_or_ge p d.length with hlt | hge
    · rw [getD_set_self d p _ hlt, getD_set_self d p _ hlt,
        List.set_set, List.set_set]
      ring_nf
    · simp only [List.set_eq_of_length_le hge]
  · rw [getD_set_ne d p p' _ h, getD_set_ne d p' p _ (Ne.symm h),
      List.set_comm _ _ _ h]

/-- The multiply-accumulate updates commute with one another. -/
lemma upd_right_comm (A B C : Matrix) (t t' : ℕ × ℕ × ℕ) :
    upd A B (upd A B C t) t' = upd A B (upd A B C t') t := by
  obtain ⟨mC, nC, d⟩ := C
  simp only [upd, Matrix.set, Matrix.get]
  simp only [Matrix.mk.injEq, true_and]
  exact set_add_comm d _ _ _ _

/-- Folding a right-commutative operation over a permutation of a list gives
the same result. -/
lemma foldl_perm {α β : Type} {f : β → α → β}
    (hf : ∀ b a a', f (f b a) a' = f (f b a') a)
    {l₁ l₂ : List α} (p : l₁.Perm l₂) : ∀ b, l₁.foldl f b = l₂.foldl f b := by
  induction p with
  | nil => intro b; rfl
  | cons x _ ih => intro b; simp only [List.foldl_cons]; exact ih _
  | swap x y l => intro b; simp only [List.foldl_cons]; rw [hf]
  | trans _ _ ih₁ ih₂ => intro b; rw [ih₁ b, ih₂ b]

/-- A fold over a flattened list is the nested fold. -/
lemma foldl_flatMap {α β γ : Type} (f : β → γ → β) (g : α → List γ)
    (l : List α) : ∀ b : β,
    (l.flatMap g).foldl f b = l.foldl (fun b a => (g a).foldl f b) b := by
  induction l with
  | nil => intro b; rfl
  | cons x xs ih =>
    intro b
    simp only [List.flatMap_cons, List.foldl_append, List.foldl_cons]
    exact ih _

/- The index-triple lists traversed by the six orderings. -/

/-- Triples in ijk order. -/
def trIJK (m r n : ℕ) : List (ℕ × ℕ × ℕ) :=
  (List.range m).flatMap fun i =>
    (List.range n).flatMap fun j =>
      (List.range r).map fun k => (i, k, j)

/-- Triples in jik order. -/
def trJIK (m r n : ℕ) : List (ℕ × ℕ × ℕ) :=
  (List.range n).flatMap fun j =>
    (List.range m).flatMap fun i =>
      (List.range r).map fun k => (i, k, j)

/-- Triples in ikj order (the canonical order). -/
def trIKJ (m r n : ℕ) : List (ℕ × ℕ × ℕ) :=
  (List.range m).flatMap fun i =>
    (List.range r).flatMap fun k =>
      (List.range n).map fun j => (i, k, j)

/-- Triples in jki order. -/
def trJKI (m r n : ℕ) : List (ℕ × ℕ × ℕ) :=
  (List.range n).flatMap fun j =>
    (List.range r).flatMap fun k =>
      (List.range m).map fun i => (i, k, j)

/-- Triples in kij order. -/
def trKIJ (m r n : ℕ) : List (ℕ × ℕ × ℕ) :=
  (List.range r).flatMap fun k =>
    (List.range m).flatMap fun i =>
      (List.range n).map fun j => (i, k, j)

/-- Triples in kji order. -/
def trKJI (m r n : ℕ) : List (ℕ × ℕ × ℕ) :=
  (List.range r).flatMap fun k =>
    (List.range n).flatMap fun j =>
      (List.range m).map fun i => (i, k, j)

lemma gemm_ijk_eq_foldl (A B C : Matrix) :
    gemm_ijk A B C = (trIJK A.m A.n B.n).foldl (upd A B) C := by
  simp [gemm_ijk, trIJK, foldl_flatMap, List.foldl_map, upd]

lemma gemm_jik_eq_foldl (A B C : Matrix) :
    gemm_jik A B C = (trJIK A.m A.n B.n).foldl (upd A B) C := by
  simp [gemm_jik, trJIK, foldl_flatMap, List.foldl_map, upd]

lemma gemm_ikj_eq_foldl (A B C : Matrix) :
    gemm_ikj A B C = (trIKJ A.m A.n B.n).foldl (upd A B) C := by
  simp [gemm_ikj, trIKJ, foldl_flatMap, List.foldl_map, upd]

lemma gemm_jki_eq_foldl (A B C : Matrix) :
    gemm_jki A B C = (trJKI A.m A.n B.n).foldl (upd A B) C := by
  simp [gemm_jki, trJKI, foldl_flatMap, List.foldl_map, upd]

lemma gemm_kij_eq_foldl (A B C : Matrix) :
    gemm_kij A B C = (trKIJ A.m A.n B.n).foldl (upd A B) C := by
  simp [gemm_kij, trKIJ, foldl_flatMap, List.foldl_map, upd]

lemma gemm_kji_eq_foldl (A B C : Matrix) :
    gemm_kji A B C = (trKJI A.m A.n B.n).foldl (upd A B) C := by
  simp [gemm_kji, trKJI, foldl_flatMap, List.foldl_map, upd]

/-- Interchange of a bind with a map over independent multisets. -/
lemma bind_map_comm {β γ δ : Type} (s : Multiset β) (t : Multiset γ)
    (f : β → γ → δ) :
    (s.bind fun b => t.map (f b)) = t.bind fun c => s.map fun b => f b c := by
  calc (s.bind fun b => t.map (f b))
      = s.bind (fun b => t.bind fun c => {f b c}) := by
        refine Multiset.bind_congr (fun b _ => ?_)
        rw [Multiset.bind_singleton]
    _ = t.bind (fun c => s.bind fun b => {f b c}) := Multiset.bind_bind s t
    _ = t.bind fun c => s.map fun b => f b c := by
        refine Multiset.bind_congr (fun c _ => ?_)
        rw [Multiset.bind_singleton]

lemma trIJK_perm_trIKJ (m r n : ℕ) : (trIJK m r n).Perm (trIKJ m r n) := by
  rw [← Multiset.coe_eq_coe]
  simp only [trIJK, trIKJ, ← Multiset.coe_bind, ← Multiset.map_coe]
  exact Multiset.bind_congr fun i _ => bind_map_comm _ _ _

lemma trJIK_perm_trIKJ (m r n : ℕ) : (trJIK m r n).Perm (trIKJ m r n) := by
  rw [← Multiset.coe_eq_coe]
  simp only [trJIK, trIKJ, ← Multiset.coe_bind, ← Multiset.map_coe]
  refine Eq.trans (Multiset.bind_bind _ _) ?_
  exact Multiset.bind_congr fun i _ => bind_map_comm _ _ _

lemma trJKI_perm_trIKJ (m r n : ℕ) : (trJKI m r n).Perm (trIKJ m r n) := by
  rw [← Multiset.coe_eq_coe]
  simp only [trJKI, trIKJ, ← Multiset.coe_bind, ← Multiset.map_coe]
  refine Eq.trans (Multiset.bind_congr fun j _ => bind_map_comm _ _ _) ?_
  refine Eq.trans (Multiset.bind_bind _ _) ?_
  exact Multiset.bind_congr fun i _ => bind_map_comm _ _ _

lemma trKIJ_perm_trIKJ (m r n : ℕ) : (trKIJ m r n).Perm (trIKJ m r n) := by
  rw [← Multiset.coe_eq_coe]
  simp only [trKIJ, trIKJ, ← Multiset.coe_bind, ← Multiset.map_coe]
  exact Multiset.bind_bind _ _

lemma trKJI_perm_trIKJ (m r n : ℕ) : (trKJI m r n).Perm (trIKJ m r n) := by
  rw [← Multiset.coe_eq_coe]
  simp only [trKJI, trIKJ, ← Multiset.coe_bind, ← Multiset.map_coe]
  refine Eq.trans (Multiset.bind_congr fun k _ => bind_map_comm _ _ _) ?_
  exact Multiset.bind_bind _ _

lemma gemm_ijk_eq_ikj (A B C : Matrix) : gemm_ijk A B C = gemm_ikj A B C := by
  rw [gemm_ijk_eq_foldl, gemm_ikj_eq_foldl]
  exact foldl_perm (upd_right_comm A B) (trIJK_perm_trIKJ _ _ _) C

lemma gemm_jik_eq_ikj (A B C : Matrix) : gemm_jik A B C = gemm_ikj A B C := by
  rw [gemm_jik_eq_foldl, gemm_ikj_eq_foldl]
  exact foldl_perm (upd_right_comm A B) (trJIK_perm_trIKJ _ _ _) C

lemma gemm_jki_eq_ikj (A B C : Matrix) : gemm_jki A B C = gemm_ikj A B C := by
  rw [gemm_jki_eq_foldl, gemm_ikj_eq_foldl]
  exact foldl_perm (upd_right_comm A B) (trJKI_perm_trIKJ _ _ _) C

lemma gemm_kij_eq_ikj (A B C : Matrix) : gemm_kij A B C = gemm_ikj A B C := by
  rw [gemm_kij_eq_foldl, gemm_ikj_eq_foldl]
  exact foldl_perm (upd_right_comm A B) (trKIJ_perm_trIKJ _ _ _) C

lemma gemm_kji_eq_ikj (A B C : Matrix) : gemm_kji A B C = gemm_ikj A B C := by
  rw [gemm_kji_eq_foldl, gemm_ikj_eq_foldl]
  exact foldl_perm (upd_right_comm A B) (trKJI_perm_trIKJ _ _ _) C

lemma matmul_ijk_eq_gemm (C A B : Matrix) : matmul_ijk C A B = gemm_ijk A B C :=
  rfl

lemma matmul_jik_eq_gemm (C A B : Matrix) : matmul_jik C A B = gemm_jik A B C :=
  rfl

lemma matmul_saxpy_eq_gemm (C A B : Matrix) :
    matmul_saxpy C A B = gemm_jki A B C := rfl

lemma matmul_ikj_eq_gemm (C A B : Matrix) : matmul_ikj C A B = gemm_ikj A B C :=
  rfl

lemma matmul_outer_product_eq_gemm (C A B : Matrix) :
    matmul_outer_product C A B = gemm_kij A B C := rfl

lemma matmul_kij_eq_gemm (C A B : Matrix) : matmul_kij C A B = gemm_kij A B C :=
  rfl

lemma foldl_upd_m (A B : Matrix) (L : List (ℕ × ℕ × ℕ)) :
    ∀ C : Matrix, (L.foldl (upd A B) C).m = C.m := by
  induction L with
  | nil => intro C; rfl
  | cons t L ih => intro C; rw [List.foldl_cons, ih]; rfl

lemma foldl_upd_n (A B : Matrix) (L : List (ℕ × ℕ × ℕ)) :
    ∀ C : Matrix, (L.foldl (upd A B) C).n = C.n := by
  induction L with
  | nil => intro C; rfl
  | cons t L ih => intro C; rw [List.foldl_cons, ih]; rfl

lemma foldl_upd_length (A B : Matrix) (L : List (ℕ × ℕ × ℕ)) :
    ∀ C : Matrix, (L.foldl (upd A B) C).data.length = C.data.length := by
  induction L with
  | nil => intro C; rfl
  | cons t L ih => intro C; rw [List.foldl_cons, ih, upd_length]

/-- Pointwise effect of a sequence of multiply-accumulate updates on a cell
of the buffer: each update targeting that cell contributes its product. -/
lemma foldl_upd_getD (A B : Matrix) (L : List (ℕ × ℕ × ℕ)) :
    ∀ (C : Matrix) (p : ℕ), p < C.data.length →
    (L.foldl (upd A B) C).data.getD p 0
      = C.data.getD p 0 +
        (L.map fun t => if t.1 * C.n + t.2.2 = p
          then A.get t.1 t.2.1 * B.get t.2.1 t.2.2 else 0).sum := by
  induction L with
  | nil => intro C p _; simp
  | cons t L ih =>
    intro C p hp
    simp only [List.foldl_cons, List.map_cons, List.sum_cons]
    rw [ih (upd A B C t) p (by rw [upd_length]; exact hp)]
    simp only [upd_n]
    by_cases hc : t.1 * C.n + t.2.2 = p
    · rw [if_pos hc]
      have hstep : (upd A B C t).data.getD p 0
          = C.data.getD p 0 + A.get t.1 t.2.1 * B.get t.2.1 t.2.2 := by
        simp only [upd, Matrix.set, Matrix.get]
        rw [hc]
        exact getD_set_self _ _ _ hp
      rw [hstep]; ring
    · rw [if_neg hc]
      have hstep : (upd A B C t).data.getD p 0 = C.data.getD p 0 := by
        simp only [upd, Matrix.set]
        exact getD_set_ne _ _ _ _ hc
      rw [hstep]; ring

lemma sum_map_flatMap {α β : Type} (g : α → List β) (f : β → ℚ) (l : List α) :
    ((l.flatMap g).map f).sum = (l.map fun a => ((g a).map f).sum).sum := by
  induction l with
  | nil => rfl
  | cons x xs ih =>
    simp [List.flatMap_cons, List.map_append, List.sum_append, ih]

lemma sum_map_range_ite (n j : ℕ) (c : ℕ → ℚ) (hj : j < n) :
    ((List.range n).map fun x => if x = j then c x else 0).sum = c j := by
  induction n with
  | zero => omega
  | succ n ih =>
    rw [List.range_succ, List.map_append, List.sum_append]
    rcases Nat.lt_or_ge j n with h | h
    · rw [ih h]
      simp [Nat.ne_of_gt h]
    · have hj' : j = n := by omega
      subst hj'
      have hz : ((List.range j).map fun x => if x = j then c x else 0)
          = (List.range j).map fun _ => 0 := by
        refine List.map_congr_left (fun a ha => ?_)
        rw [List.mem_range] at ha
        rw [if_neg (by omega)]
      rw [hz]
      simp

/-- The row-major flat index determines row and column when the column index
is legal. -/
lemma rowcol_inj {n i j i' j' : ℕ} (hj : j < n) (hj' : j' < n)
    (h : i' * n + j' = i * n + j) : i' = i ∧ j' = j := by
  have hii : i' = i := by
    rcases Nat.lt_trichotomy i' i with hlt | he | hgt
    · exfalso
      have h1 : i' * n + j' < (i' + 1) * n := by rw [Nat.succ_mul]; omega
      have h2 : (i' + 1) * n ≤ i * n := mul_le_mul_right' (by omega) n
      omega
    · exact he
    · exfalso
      have h1 : i * n + j < (i + 1) * n := by rw [Nat.succ_mul]; omega
      have h2 : (i + 1) * n ≤ i' * n := mul_le_mul_right' (by omega) n
      omega
  subst hii
  exact ⟨rfl, by omega⟩

lemma idx_lt {m n i j : ℕ} (hi : i < m) (hj : j < n) : i * n + j < m * n := by
  have h1 : i * n + j < (i + 1) * n := by rw [Nat.succ_mul]; omega
  have h2 : (i + 1) * n ≤ m * n := mul_le_mul_right' (by omega) n
  omega

lemma inner_sum_eq (A B : Matrix) (n i j k : ℕ) (hj : j < n) :
    (((List.range n).map fun j' => ((i, k, j') : ℕ × ℕ × ℕ)).map fun t =>
        if t.1 * n + t.2.2 = i * n + j
        then A.get t.1 t.2.1 * B.get t.2.1 t.2.2 else 0).sum
      = A.get i k * B.get k j := by
  rw [List.map_map]
  have hfun : ∀ j' ∈ List.range n,
      ((fun t : ℕ × ℕ × ℕ => if t.1 * n + t.2.2 = i * n + j
          then A.get t.1 t.2.1 * B.get t.2.1 t.2.2 else 0) ∘
        fun j' => (i, k, j')) j'
        = if j' = j then A.get i k * B.get k j' else 0 := by
    intro j' _
    simp [Nat.add_right_inj]
  rw [List.map_congr_left hfun]
  exact sum_map_range_ite n j (fun j' => A.get i k * B.get k j') hj

lemma inner_sum_zero (A B : Matrix) (n i j i' k : ℕ) (hj : j < n)
    (hne : i' ≠ i) :
    (((List.range n).map fun j' => ((i', k, j') : ℕ × ℕ × ℕ)).map fun t =>
        if t.1 * n + t.2.2 = i * n + j
        then A.get t.1 t.2.1 * B.get t.2.1 t.2.2 else 0).sum = 0 := by
  rw [List.map_map]
  have hfun : ∀ j' ∈ List.range n,
      ((fun t : ℕ × ℕ × ℕ => if t.1 * n + t.2.2 = i * n + j
          then A.get t.1 t.2.1 * B.get t.2.1 t.2.2 else 0) ∘
        fun j' => (i', k, j')) j' = 0 := by
    intro j' hj'
    rw [List.mem_range] at hj'
    simp only [Function.comp_apply]
    rw [if_neg]
    intro hcond
    exact hne (rowcol_inj hj hj' hcond).1
  rw [List.map_congr_left hfun]
  simp

/-- Summing the contributions of all index triples at cell (i,j) leaves
exactly the inner-product sum over k. -/
lemma sum_contrib (A B : Matrix) (m r n i j : ℕ) (hi : i < m) (hj : j < n) :
    ((trIKJ m r n).map fun t =>
        if t.1 * n + t.2.2 = i * n + j
        then A.get t.1 t.2.1 * B.get t.2.1 t.2.2 else 0).sum
      = ((List.range r).map fun k => A.get i k * B.get k j).sum := by
  unfold trIKJ
  rw [sum_map_flatMap]
  have houter : ∀ i' ∈ List.range m,
      ((((List.range r).flatMap fun k =>
            (List.range n).map fun j' => ((i', k, j') : ℕ × ℕ × ℕ)).map fun t =>
          if t.1 * n + t.2.2 = i * n + j
          then A.get t.1 t.2.1 * B.get t.2.1 t.2.2 else 0).sum)
        = if i' = i
          then ((List.range r).map fun k => A.get i k * B.get k j).sum
          else 0 := by
    intro i' _
    rw [sum_map_flatMap]
    by_cases hii : i' = i
    · subst hii
      rw [if_pos rfl]
      congr 1
      exact List.map_congr_left fun k _ => inner_sum_eq A B n i' j k hj
    · rw [if_neg hii]
      have hz : ∀ k ∈ List.range r,
          (((List.range n).map fun j' => ((i', k, j') : ℕ × ℕ × ℕ)).map fun t =>
              if t.1 * n + t.2.2 = i * n + j
              then A.get t.1 t.2.1 * B.get t.2.1 t.2.2 else 0).sum = (0 : ℚ) :=
        fun k _ => inner_sum_zero A B n i j i' k hj hii
      rw [List.map_congr_left hz]
      simp
  rw [List.map_congr_left houter]
  exact sum_map_range_ite m i
    (fun _ => ((List.range r).map fun k => A.get i k * B.get k j).sum) hi

/-- Functional correctness of the canonical ordering: each cell of the
accumulator gains the inner product of the corresponding row of A and
column of B. -/
lemma gemm_ikj_value (A B C : Matrix) (hm : C.m = A.m) (hn : C.n = B.n)
    (hwf : C.data.length = C.m * C.n) {i j : ℕ} (hi : i < A.m)
    (hj : j < B.n) :
    (gemm_ikj A B C).get i j
      = C.get i j + ((List.range A.n).map fun k => A.get i k * B.get k j).sum := by
  have h1 : (gemm_ikj A B C).n = C.n := by
    rw [gemm_ikj_eq_foldl]; exact foldl_upd_n A B _ C
  have hp : i * C.n + j < C.data.length := by
    rw [hwf]
    exact idx_lt (by omega) (by omega)
  have h2 : (gemm_ikj A B C).get i j
      = (gemm_ikj A B C).data.getD (i * C.n + j) 0 := by
    show (gemm_ikj A B C).data.getD (i * (gemm_ikj A B C).n + j) 0 = _
    rw [h1]
  rw [h2, gemm_ikj_eq_foldl, foldl_upd_getD A B _ C _ hp]
  rw [show C.get i j = C.data.getD (i * C.n + j) 0 from rfl]
  congr 1
  rw [hn]
  exact sum_contrib A B A.m A.n B.n i j hi hj

/- ================= gaxpy machinery ==================================== -/

/-- The single update `y[i] += A(i,j) * x[j]` performed by both gaxpy
orientations, indexed by the pair `(i, j)`. -/
def updV (A : Matrix) (x : List ℚ) (y : List ℚ) (t : ℕ × ℕ) : List ℚ :=
  y.set t.1 (y.getD t.1 0 + A.get t.1 t.2 * x.getD t.2 0)

lemma updV_right_comm (A : Matrix) (x : List ℚ) (y : List ℚ) (t t' : ℕ × ℕ) :
    updV A x (updV A x y t) t' = updV A x (updV A x y t') t :=
  set_add_comm y t.1 t'.1 _ _

/-- Index pairs in row-major traversal order. -/
def prRC (m n : ℕ) : List (ℕ × ℕ) :=
  (List.range m).flatMap fun i => (List.range n).map fun j => (i, j)

/-- Index pairs in column-major traversal order. -/
def prCR (m n : ℕ) : List (ℕ × ℕ) :=
  (List.range n).flatMap fun j => (List.range m).map fun i => (i, j)

lemma prRC_perm_prCR (m n : ℕ) : (prRC m n).Perm (prCR m n) := by
  rw [← Multiset.coe_eq_coe]
  simp only [prRC, prCR, ← Multiset.coe_bind, ← Multiset.map_coe]
  exact bind_map_comm _ _ _

lemma gaxpy_row_eq_foldl (A : Matrix) (x y : List ℚ) :
    gaxpy_row_oriented A x y = (prRC A.m A.n).foldl (updV A x) y := by
  simp [gaxpy_row_oriented, prRC, foldl_flatMap, List.foldl_map, updV]

lemma gaxpy_column_eq_foldl (A : Matrix) (x y : List ℚ) :
    gaxpy_column_oriented A x y = (prCR A.m A.n).foldl (updV A x) y := by
  simp [gaxpy_column_oriented, prCR, foldl_flatMap, List.foldl_map, updV]

lemma matrix_vector_mult_eq_gaxpy (A : Matrix) (x y : List ℚ) :
    matrix_vector_mult A x y = gaxpy_row_oriented A x y := rfl

lemma foldl_updV_getD (A : Matrix) (x : List ℚ) (L : List (ℕ × ℕ)) :
    ∀ (y : List ℚ) (p : ℕ), p < y.length →
    (L.foldl (updV A x) y).getD p 0
      = y.getD p 0 +
        (L.map fun t => if t.1 = p then A.get t.1 t.2 * x.getD t.2 0 else 0).sum := by
  induction L with
  | nil => intro y p _; simp
  | cons t L ih =>
    intro y p hp
    simp only [List.foldl_cons, List.map_cons, List.sum_cons]
    rw [ih (updV A x y t) p (by simp [updV, hp])]
    by_cases hc : t.1 = p
    · rw [if_pos hc]
      have hstep : (updV A x y t).getD p 0
          = y.getD p 0 + A.get t.1 t.2 * x.getD t.2 0 := by
        unfold updV
        rw [hc]
        exact getD_set_self _ _ _ hp
      rw [hstep]; ring
    · rw [if_neg hc]
      have hstep : (updV A x y t).getD p 0 = y.getD p 0 :=
        getD_set_ne _ _ _ _ hc
      rw [hstep]; ring

lemma sum_contribV (A : Matrix) (x : List ℚ) (m n i : ℕ) (hi : i < m) :
    ((prRC m n).map fun t =>
        if t.1 = i then A.get t.1 t.2 * x.getD t.2 0 else 0).sum
      = ((List.range n).map fun j => A.get i j * x.getD j 0).sum := by
  unfold prRC
  rw [sum_map_flatMap]
  have houter : ∀ i' ∈ List.range m,
      ((((List.range n).map fun j => ((i', j) : ℕ × ℕ)).map fun t =>
          if t.1 = i then A.get t.1 t.2 * x.getD t.2 0 else 0).sum)
        = if i' = i
          then ((List.range n).map fun j => A.get i j * x.getD j 0).sum
          else 0 := by
    intro i' _
    rw [List.map_map]
    by_cases hii : i' = i
    · subst hii
      rw [if_pos rfl]
      congr 1
      exact List.map_congr_left fun j _ => by simp
    · rw [if_neg hii]
      have hz : ∀ j ∈ List.range n,
          ((fun t : ℕ × ℕ => if t.1 = i then A.get t.1 t.2 * x.getD t.2 0 else 0) ∘
            fun j => (i', j)) j = (0 : ℚ) := fun j _ => by simp [hii]
      rw [List.map_congr_left hz]
      simp
  rw [List.map_congr_left houter]
  exact sum_map_range_ite m i
    (fun _ => ((List.range n).map fun j => A.get i j * x.getD j 0).sum) hi

/-- Functional correctness of row-oriented gaxpy: `y[i]` gains the inner
product of row i of A with x. -/
lemma gaxpy_row_value (A : Matrix) (x y : List ℚ) (hy : y.length = A.m)
    {i : ℕ} (hi : i < A.m) :
    (gaxpy_row_oriented A x y).getD i 0
      = y.getD i 0 + ((List.range A.n).map fun j => A.get i j * x.getD j 0).sum := by
  rw [gaxpy_row_eq_foldl, foldl_updV_getD A x _ y i (by omega)]
  congr 1
  exact sum_contribV A x A.m A.n i hi

/- ================= concrete example data ============================== -/

/-- Example 2x2 matrix A = [[1,2],[3,4]] used by the test fixtures. -/
def exA : Matrix := ⟨2, 2, [1, 2, 3, 4]⟩

/-- Example 2x2 matrix B = [[5,6],[7,8]]. -/
def exB : Matrix := ⟨2, 2, [5, 6, 7, 8]⟩

/-- Example 2x2 accumulator C = [[10,20],[30,40]]. -/
def exC : Matrix := ⟨2, 2, [10, 20, 30, 40]⟩

/- ================= claim theorems: C2, C3, C4 ========================= -/

/-- C2: all six naive loop orderings (and the C variants built from the
inner dot-product/saxpy kernels) update the accumulator identically, and
the common result adds `sum over k of A(i,k) * B(k,j)` to each cell
`C(i,j)` with `i < m`, `j < n`. -/
theorem gemm_six_orderings_correct :
    (∀ A B C : Matrix,
      gemm_ijk A B C = gemm_ikj A B C ∧ gemm_jik A B C = gemm_ikj A B C ∧
      gemm_jki A B C = gemm_ikj A B C ∧ gemm_kij A B C = gemm_ikj A B C ∧
      gemm_kji A B C = gemm_ikj A B C ∧
      matmul_ijk C A B = gemm_ijk A B C ∧ matmul_jik C A B = gemm_jik A B C ∧
      matmul_saxpy C A B = gemm_jki A B C ∧ matmul_ikj C A B = gemm_ikj A B C ∧
      matmul_outer_product C A B = gemm_kij A B C ∧
      matmul_kij C A B = gemm_kij A B C) ∧
    (∀ (A B C : Matrix) (i j : ℕ), C.m = A.m → C.n = B.n →
      C.data.length = C.m * C.n → i < A.m → j < B.n →
      (gemm_ikj A B C).get i j
        = C.get i j + ((List.range A.n).map fun k => A.get i k * B.get k j).sum) := by
  constructor
  · intro A B C
    exact ⟨gemm_ijk_eq_ikj A B C, gemm_jik_eq_ikj A B C, gemm_jki_eq_ikj A B C,
      gemm_kij_eq_ikj A B C, gemm_kji_eq_ikj A B C, rfl, rfl, rfl, rfl, rfl, rfl⟩
  · intro A B C i j hm hn hwf hi hj
    exact gemm_ikj_value A B C hm hn hwf hi hj

/-- Witness for C2 at the concrete 2x2 example. -/
theorem gemm_six_orderings_correct_witness :
    (gemm_ikj exA exB exC).get 0 1
      = exC.get 0 1 + ((List.range exA.n).map fun k => exA.get 0 k * exB.get k 1).sum :=
  gemm_six_orderings_correct.2 exA exB exC 0 1 rfl rfl rfl
    (by decide) (by decide)

/-- C3: the row-oriented and column-oriented gaxpy traversals produce the
same final vector, for every matrix and every pair of vectors. -/
theorem gaxpy_row_column_equal :
    ∀ (A : Matrix) (x y : List ℚ),
      gaxpy_row_oriented A x y = gaxpy_column_oriented A x y := by
  intro A x y
  rw [gaxpy_row_eq_foldl, gaxpy_column_eq_foldl]
  exact foldl_perm (updV_right_comm A x) (prRC_perm_prCR _ _) y

/-- C4: gaxpy adds `sum over j of A(i,j) * x[j]` into the existing `y[i]`
(and `matrix_vector_mult` is the same row-oriented loop); on the fixture
`y = [10,20]`, `A = [[1,2],[3,4]]`, `x = [1,1]` the result is `[13,27]`. -/
theorem gaxpy_accumulates :
    (∀ (A : Matrix) (x y : List ℚ) (i : ℕ), y.length = A.m → i < A.m →
      (gaxpy_row_oriented A x y).getD i 0
        = y.getD i 0 + ((List.range A.n).map fun j => A.get i j * x.getD j 0).sum ∧
      (matrix_vector_mult A x y).getD i 0
        = y.getD i 0 + ((List.range A.n).map fun j => A.get i j * x.getD j 0).sum) ∧
    gaxpy_row_oriented exA [1, 1] [10, 20] = [13, 27] := by
  constructor
  · intro A x y i hy hi
    refine ⟨gaxpy_row_value A x y hy hi, ?_⟩
    rw [matrix_vector_mult_eq_gaxpy]
    exact gaxpy_row_value A x y hy hi
  · norm_num [gaxpy_row_oriented, exA, Matrix.get,
      show List.range 2 = [0, 1] from rfl]

/-- Witness for C4: row 1 of the fixture gains 3 + 4 = 7. -/
theorem gaxpy_accumulates_witness :
    (gaxpy_row_oriented exA [1, 1] [10, 20]).getD 1 0
      = [(10 : ℚ), 20].getD 1 0 +
        ((List.range exA.n).map fun j => exA.get 1 j * [(1 : ℚ), 1].getD j 0).sum :=
  (gaxpy_accumulates.1 exA [1, 1] [10, 20] 1 rfl (by decide)).1

/- ================= blocked-kernel machinery =========================== -/

/-- The tile start indices visited by `for (s = i; s < bound; s += step)`
when `step > 0` (empty for `step = 0`, where the C loop would not
terminate). -/
def tileStarts (step bound i : ℕ) : List ℕ :=
  if _h : 0 < step ∧ i < bound then i :: tileStarts step bound (i + step)
  else []
termination_by bound - i
decreasing_by omega

lemma tileStarts_eq (step bound i : ℕ) :
    tileStarts step bound i
      = if _h : 0 < step ∧ i < bound then i :: tileStarts step bound (i + step)
        else [] := by
  rw [tileStarts]

lemma forLoopM_congr {α : Type} {body1 body2 : α → ℕ → Option α}
    (h : ∀ a x, body1 a x = body2 a x) :
    ∀ (fuel i bound step : ℕ) (acc : α),
      forLoopM body1 fuel i bound step acc
        = forLoopM body2 fuel i bound step acc := by
  intro fuel
  induction fuel with
  | zero => intro i bound step acc; rfl
  | succ fuel ih =>
    intro i bound step acc
    simp only [forLoopM]
    split
    · rw [h acc i]
      cases body2 acc i with
      | none => rfl
      | some a2 => exact ih _ _ _ _
    · rfl

/-- A fuel-bounded loop with a total (always-`some`) body and positive step
completes, visiting exactly the `tileStarts` indices, as soon as the fuel
covers the iteration count. -/
lemma forLoopM_pure {α : Type} (body : α → ℕ → Option α) (g : α → ℕ → α)
    (hbody : ∀ a x, body a x = some (g a x)) {step bound : ℕ}
    (hstep : 0 < step) :
    ∀ (fuel i : ℕ) (acc : α), bound - i ≤ fuel →
      forLoopM body fuel i bound step acc
        = some ((tileStarts step bound i).foldl g acc) := by
  intro fuel
  induction fuel with
  | zero =>
    intro i acc hf
    have hni : ¬ i < bound := by omega
    simp only [forLoopM, if_neg hni]
    rw [tileStarts_eq, dif_neg (by omega), List.foldl_nil]
  | succ fuel ih =>
    intro i acc hf
    by_cases hib : i < bound
    · simp only [forLoopM, if_pos hib, hbody]
      conv_rhs => rw [tileStarts_eq]
      rw [dif_pos ⟨hstep, hib⟩, List.foldl_cons,
        ih (i + step) (g acc i) (by omega)]
    · simp only [forLoopM, if_neg hib]
      rw [tileStarts_eq, dif_neg (by omega), List.foldl_nil]

/-- A loop whose body fails at the current index returns `none` whatever the
fuel. -/
lemma forLoopM_zero_step_none {α : Type} {body : α → ℕ → Option α}
    {i bound : ℕ} (hib : i < bound) (hbody : ∀ a, body a i = none) :
    ∀ (fuel : ℕ) (acc : α), forLoopM body fuel i bound 0 acc = none := by
  intro fuel acc
  cases fuel with
  | zero => simp [forLoopM, hib]
  | succ fuel => simp [forLoopM, hib, hbody]

/-- A zero-step loop with a succeeding body never terminates: every fuel
bound is exhausted. -/
lemma forLoopM_zero_step_pure {α : Type} {body : α → ℕ → Option α}
    {i bound : ℕ} (hib : i < bound) (hbody : ∀ a, (body a i).isSome) :
    ∀ (fuel : ℕ) (acc : α), forLoopM body fuel i bound 0 acc = none := by
  intro fuel
  induction fuel with
  | zero => intro acc; simp [forLoopM, hib]
  | succ fuel ih =>
    intro acc
    simp only [forLoopM, if_pos hib]
    obtain ⟨b, hb⟩ := Option.isSome_iff_exists.mp (hbody acc)
    simp only [hb]
    simpa using ih b

/-- The clamped tile segments `[s, min(s + step, bound))` for consecutive
tile starts concatenate to the full range: boundary tiles are smaller, no
index is missed or repeated. -/
lemma tiles_flatMap_seg (step bound : ℕ) (hs : 0 < step) :
    ∀ (d i : ℕ), bound - i ≤ d →
    (tileStarts step bound i).flatMap
        (fun s => List.range' s (min (s + step) bound - s))
      = List.range' i (bound - i) := by
  intro d
  induction d with
  | zero =>
    intro i hd
    rw [tileStarts_eq, dif_neg (by omega), List.flatMap_nil,
      show bound - i = 0 by omega]
    rfl
  | succ d ih =>
    intro i hd
    by_cases hib : i < bound
    · rw [tileStarts_eq, dif_pos ⟨hs, hib⟩, List.flatMap_cons,
        ih (i + step) (by omega)]
      rcases le_or_lt (i + step) bound with hle | hlt
      · have h1 : min (i + step) bound - i = step := by omega
        rw [h1]
        have h2 := List.range'_append i step (bound - (i + step)) 1
        simp only [one_mul] at h2
        rw [show bound - (i + step) + step = bound - i by omega] at h2
        exact h2
      · rw [show min (i + step) bound - i = bound - i by omega,
          show bound - (i + step) = 0 by omega]
        simp
    · rw [tileStarts_eq, dif_neg (by omega), List.flatMap_nil,
        show bound - i = 0 by omega]
      rfl

/-- Multiset version: binding the clamped segments of all tiles equals
binding the full range. -/
lemma tiles_bind_ms {γ : Type} (bs bound : ℕ) (hs : 0 < bs)
    (f : ℕ → Multiset γ) :
    ((tileStarts bs bound 0 : List ℕ) : Multiset ℕ).bind
        (fun s => ((List.range' s (min (s + bs) bound - s) : List ℕ) :
          Multiset ℕ).bind f)
      = ((List.range bound : List ℕ) : Multiset ℕ).bind f := by
  have hseg := tiles_flatMap_seg bs bound hs bound 0 (by omega)
  rw [Nat.sub_zero] at hseg
  rw [← Multiset.bind_assoc, Multiset.coe_bind, hseg, ← List.range_eq_range']

/-- Multiset version for a trailing `map`. -/
lemma tiles_map_ms {γ : Type} (bs bound : ℕ) (hs : 0 < bs) (f : ℕ → γ) :
    ((tileStarts bs bound 0 : List ℕ) : Multiset ℕ).bind
        (fun s => Multiset.map f
          ((List.range' s (min (s + bs) bound - s) : List ℕ) : Multiset ℕ))
      = Multiset.map f ((List.range bound : List ℕ) : Multiset ℕ) := by
  have hseg := tiles_flatMap_seg bs bound hs bound 0 (by omega)
  rw [Nat.sub_zero] at hseg
  rw [← Multiset.map_bind, Multiset.coe_bind, hseg, ← List.range_eq_range']

/-- The index triples visited by the blocked kernel: for each tile triple
(ii, jj, kk), the clamped tile ranges in i, k, j order. -/
def blockedTriples (bs m n r : ℕ) : List (ℕ × ℕ × ℕ) :=
  (tileStarts bs m 0).flatMap fun ii =>
    (tileStarts bs n 0).flatMap fun jj =>
      (tileStarts bs r 0).flatMap fun kk =>
        (List.range' ii (min (ii + bs) m - ii)).flatMap fun i =>
          (List.range' kk (min (kk + bs) r - kk)).flatMap fun k =>
            (List.range' jj (min (jj + bs) n - jj)).map fun j => (i, k, j)

lemma inner_block_outer_eq (A B C : Matrix) (ii kk jj i_max j_max k_max : ℕ) :
    inner_block_outer_loop A B C ii kk jj i_max j_max k_max
      = ((List.range' ii (i_max - ii)).flatMap fun i =>
          (List.range' kk (k_max - kk)).flatMap fun k =>
            (List.range' jj (j_max - jj)).map fun j => ((i, k, j) : ℕ × ℕ × ℕ)).foldl
          (upd A B) C := by
  simp [inner_block_outer_loop, inner_block_middle_loop,
    inner_block_inner_loop, foldl_flatMap, List.foldl_map, upd]

lemma outer_block_inner_eq (A B C : Matrix) (ii jj bs m n r fuel : ℕ)
    (hs : 0 < bs) (hr : r ≤ fuel) :
    outer_block_inner_loop A B C ii jj bs m n r fuel
      = some ((tileStarts bs r 0).foldl (fun C kk =>
          inner_block_outer_loop A B C ii kk jj
            (min (ii + bs) m) (min (jj + bs) n) (min (kk + bs) r)) C) := by
  unfold outer_block_inner_loop
  exact forLoopM_pure _ _ (fun a x => rfl) hs fuel 0 C (by omega)

lemma outer_block_middle_eq (A B C : Matrix) (ii bs m n r fuel : ℕ)
    (hs : 0 < bs) (hr : r ≤ fuel) (hn : n ≤ fuel) :
    outer_block_middle_loop A B C ii bs m n r fuel
      = some ((tileStarts bs n 0).foldl (fun C jj =>
          (tileStarts bs r 0).foldl (fun C kk =>
            inner_block_outer_loop A B C ii kk jj
              (min (ii + bs) m) (min (jj + bs) n) (min (kk + bs) r)) C) C) := by
  unfold outer_block_middle_loop
  exact forLoopM_pure _ _
    (fun a x => outer_block_inner_eq A B a ii x bs m n r fuel hs hr)
    hs fuel 0 C (by omega)

lemma outer_block_outer_eq (A B C : Matrix) (bs m n r fuel : ℕ)
    (hs : 0 < bs) (hr : r ≤ fuel) (hn : n ≤ fuel) (hm : m ≤ fuel) :
    outer_block_outer_loop A B C bs m n r fuel
      = some ((tileStarts bs m 0).foldl (fun C ii =>
          (tileStarts bs n 0).foldl (fun C jj =>
            (tileStarts bs r 0).foldl (fun C kk =>
              inner_block_outer_loop A B C ii kk jj
                (min (ii + bs) m) (min (jj + bs) n) (min (kk + bs) r)) C) C) C) := by
  unfold outer_block_outer_loop
  exact forLoopM_pure _ _
    (fun a x => outer_block_middle_eq A B a x bs m n r fuel hs hr hn)
    hs fuel 0 C (by omega)

/-- With positive block size and enough fuel, the blocked kernel completes
and performs exactly the `blockedTriples` sequence of multiply-accumulate
updates. -/
lemma gemm_blocked_eq_foldl (A B C : Matrix) (bs fuel : ℕ) (hs : 0 < bs)
    (hm : A.m ≤ fuel) (hn : B.n ≤ fuel) (hr : A.n ≤ fuel) :
    gemm_blocked A B C bs fuel
      = some ((blockedTriples bs A.m B.n A.n).foldl (upd A B) C) := by
  unfold gemm_blocked
  rw [outer_block_outer_eq A B C bs A.m B.n A.n fuel hs hr hn hm]
  congr 1
  simp [blockedTriples, foldl_flatMap, List.foldl_map, inner_block_outer_eq,
    upd]

/-- The blocked traversal is a permutation of the naive ikj traversal. -/
lemma blockedTriples_perm (bs m n r : ℕ) (hs : 0 < bs) :
    (blockedTriples bs m n r).Perm (trIKJ m r n) := by
  rw [← Multiset.coe_eq_coe]
  simp only [blockedTriples, trIKJ, ← Multiset.coe_bind, ← Multiset.map_coe]
  refine Eq.trans (Multiset.bind_congr fun ii _ =>
    Multiset.bind_congr fun jj _ => Multiset.bind_bind _ _) ?_
  refine Eq.trans (Multiset.bind_congr fun ii _ =>
    Multiset.bind_congr fun jj _ => Multiset.bind_congr fun i _ =>
      tiles_bind_ms bs r hs _) ?_
  refine Eq.trans (Multiset.bind_congr fun ii _ => Multiset.bind_bind _ _) ?_
  refine Eq.trans (Multiset.bind_congr fun ii _ =>
    Multiset.bind_congr fun i _ => Multiset.bind_bind _ _) ?_
  refine Eq.trans (Multiset.bind_congr fun ii _ =>
    Multiset.bind_congr fun i _ => Multiset.bind_congr fun k _ =>
      tiles_map_ms bs n hs _) ?_
  exact tiles_bind_ms bs m hs _

/-- The blocked kernel computes the naive ikj result. -/
lemma gemm_blocked_eq_ikj (A B C : Matrix) (bs fuel : ℕ) (hs : 1 ≤ bs)
    (hm : A.m ≤ fuel) (hn : B.n ≤ fuel) (hr : A.n ≤ fuel) :
    gemm_blocked A B C bs fuel = some (gemm_ikj A B C) := by
  rw [gemm_blocked_eq_foldl A B C bs fuel hs hm hn hr, gemm_ikj_eq_foldl]
  exact congrArg some
    (foldl_perm (upd_right_comm A B) (blockedTriples_perm bs A.m B.n A.n hs) C)

lemma ite_lt_eq_min (a b : ℕ) : (if a < b then a else b) = min a b := by
  split <;> omega

/-- The C `matmul_blocked` is the same computation as the C++
`gemm_blocked`: identical tile-loop nesting, with the ternary clamps equal
to the `min` clamps. -/
lemma matmul_blocked_eq_gemm_blocked (C A B : Matrix) (bs fuel : ℕ) :
    matmul_blocked C A B bs fuel = gemm_blocked A B C bs fuel := by
  simp only [matmul_blocked, gemm_blocked, outer_block_outer_loop,
    outer_block_middle_loop, outer_block_inner_loop, inner_block_outer_loop,
    inner_block_middle_loop, inner_block_inner_loop, Matrix.rows, Matrix.cols,
    ite_lt_eq_min]

/- ================= claim theorems: C1, C6, C7 ========================= -/

/-- C1: for every block size at least 1 (including sizes that do not divide
the dimensions, or exceed them) and enough fuel to cover the tile loops,
the blocked kernels produce exactly the naive ikj result, and the result is
therefore invariant to the choice of block size. -/
theorem blocked_matches_naive :
    ∀ (A B C : Matrix) (bs fuel : ℕ), 1 ≤ bs →
      A.m ≤ fuel → B.n ≤ fuel → A.n ≤ fuel →
      gemm_blocked A B C bs fuel = some (gemm_ikj A B C) ∧
      matmul_blocked C A B bs fuel = some (gemm_ikj A B C) ∧
      (∀ bs2 fuel2, 1 ≤ bs2 → A.m ≤ fuel2 → B.n ≤ fuel2 → A.n ≤ fuel2 →
        gemm_blocked A B C bs fuel = gemm_blocked A B C bs2 fuel2) := by
  intro A B C bs fuel hs hm hn hr
  refine ⟨gemm_blocked_eq_ikj A B C bs fuel hs hm hn hr, ?_, ?_⟩
  · rw [matmul_blocked_eq_gemm_blocked]
    exact gemm_blocked_eq_ikj A B C bs fuel hs hm hn hr
  · intro bs2 fuel2 hs2 hm2 hn2 hr2
    rw [gemm_blocked_eq_ikj A B C bs fuel hs hm hn hr,
      gemm_blocked_eq_ikj A B C bs2 fuel2 hs2 hm2 hn2 hr2]

/-- Witness for C1: block size 3 exceeds the 2x2 dimensions, yet the result
is the naive one. -/
theorem blocked_matches_naive_witness :
    gemm_blocked exA exB exC 3 2 = some (gemm_ikj exA exB exC) :=
  (blocked_matches_naive exA exB exC 3 2 (by decide) (by decide) (by decide)
    (by decide)).1

/-- C6: with a positive block size and fuel covering each loop bound, every
tile loop of the blocked kernels terminates with a result. -/
theorem blocked_kernels_terminate :
    ∀ (A B C : Matrix) (bs fuel : ℕ), 1 ≤ bs →
      A.m ≤ fuel → B.n ≤ fuel → A.n ≤ fuel →
      (∃ D, gemm_blocked A B C bs fuel = some D) ∧
      (∃ D, matmul_blocked C A B bs fuel = some D) := by
  intro A B C bs fuel hs hm hn hr
  constructor
  · exact ⟨gemm_ikj A B C, gemm_blocked_eq_ikj A B C bs fuel hs hm hn hr⟩
  · refine ⟨gemm_ikj A B C, ?_⟩
    rw [matmul_blocked_eq_gemm_blocked]
    exact gemm_blocked_eq_ikj A B C bs fuel hs hm hn hr

/-- Witness for C6 at the concrete 2x2 example with block size 1. -/
theorem blocked_kernels_terminate_witness :
    ∃ D, gemm_blocked exA exB exC 1 5 = some D :=
  (blocked_kernels_terminate exA exB exC 1 5 (by decide) (by decide)
    (by decide) (by decide)).1

/-- A fuel-indexed run that fails for every fuel bound: the embedded loop
never reaches its exit condition, i.e. the C loop is infinite. -/
def diverges (f : ℕ → Option Matrix) : Prop := ∀ fuel, f fuel = none

/-- C7 (amended): the blocked kernels contain no validation of
`block_size`; with `block_size = 0` and positive dimensions the tile loops
make no progress, so the kernels never terminate instead of rejecting the
argument. -/
theorem invalid_block_size_loops_forever :
    ∀ (A B C : Matrix), 0 < A.m → 0 < B.n → 0 < A.n →
      diverges (gemm_blocked A B C 0) ∧ diverges (matmul_blocked C A B 0) := by
  intro A B C hm0 hn0 hr0
  have hkk : ∀ (ii jj : ℕ) (a : Matrix) (fuel : ℕ),
      outer_block_inner_loop A B a ii jj 0 A.m B.n A.n fuel = none := by
    intro ii jj a fuel
    unfold outer_block_inner_loop
    refine forLoopM_zero_step_pure hr0 (fun a2 => ?_) fuel a
    rfl
  have hjj : ∀ (ii : ℕ) (a : Matrix) (fuel : ℕ),
      outer_block_middle_loop A B a ii 0 A.m B.n A.n fuel = none := by
    intro ii a fuel
    unfold outer_block_middle_loop
    exact forLoopM_zero_step_none hn0 (fun a2 => hkk ii 0 a2 fuel) fuel a
  have hgemm : diverges (gemm_blocked A B C 0) := by
    intro fuel
    unfold gemm_blocked outer_block_outer_loop
    exact forLoopM_zero_step_none hm0 (fun a => hjj 0 a fuel) fuel C
  refine ⟨hgemm, fun fuel => ?_⟩
  rw [matmul_blocked_eq_gemm_blocked]
  exact hgemm fuel

/-- Counterexample for C7 as written: at the concrete 2x2 inputs,
`block_size = 0` is not rejected with an error; both blocked kernels spin
in their tile loops forever (every fuel bound is exhausted). -/
theorem invalid_block_size_not_rejected :
    diverges (gemm_blocked exA exB exC 0) ∧
    diverges (matmul_blocked exC exA exB 0) :=
  invalid_block_size_loops_forever exA exB exC (by decide) (by decide)
    (by decide)

/-- Witness for the amended C7 statement. -/
theorem invalid_block_size_loops_forever_witness :
    gemm_blocked exA exB exC 0 1000 = none :=
  (invalid_block_size_loops_forever exA exB exC (by decide) (by decide)
    (by decide)).1 1000

/- ================= claim theorems: C9, C10 ============================ -/

/-- C9 (code evaluated at the failing input): `int_random_matrix` on a 2x2
matrix whose buffer holds [7,7,7,7] assigns only the first `rows = 2` cells
(the loop bound is `m->rows`, not `m->rows * m->cols`), leaving cells 2 and
3 at 7, outside [-1,1]; the sibling `init_random_matrix` overwrites all
four cells as the spec describes.  The random source is the constant 1/2,
so assigned cells become 1/2 * 2 - 1 = 0. -/
theorem int_random_matrix_partial_fill :
    (int_random_matrix ⟨2, 2, [7, 7, 7, 7]⟩ (fun _ => 1/2)).data
      = [0, 0, 7, 7] ∧
    ¬ (∀ q ∈ (int_random_matrix ⟨2, 2, [7, 7, 7, 7]⟩ (fun _ => 1/2)).data,
        -1 ≤ q ∧ q ≤ 1) ∧
    (init_random_matrix ⟨2, 2, [7, 7, 7, 7]⟩ (fun _ => 1/2)).data
      = [0, 0, 0, 0] := by
  have h1 : (int_random_matrix ⟨2, 2, [7, 7, 7, 7]⟩ (fun _ => 1/2)).data
      = [0, 0, 7, 7] := by
    norm_num [int_random_matrix, Matrix.rows,
      show List.range 2 = [0, 1] from rfl]
  refine ⟨h1, ?_, ?_⟩
  · intro hall
    have h7 := hall 7 (by rw [h1]; simp)
    norm_num at h7
  · norm_num [init_random_matrix, Matrix.rows, Matrix.cols,
      show List.range 4 = [0, 1, 2, 3] from rfl]

/-- C10: construction zero-initializes: the buffer has length exactly
`rows * cols` with every element 0, identically in the C (`calloc`) and C++
(value-initialized vector) variants; consequently one multiply into a fresh
accumulator yields exactly the matrix product. -/
theorem create_matrix_zero_init :
    (∀ rows cols : ℕ, 1 ≤ rows → 1 ≤ cols →
      (create_matrix rows cols).data.length = rows * cols ∧
      (∀ q ∈ (create_matrix rows cols).data, q = 0) ∧
      Matrix.init rows cols = create_matrix rows cols) ∧
    (∀ (A B : Matrix) (i j : ℕ), i < A.m → j < B.n →
      (gemm_ikj A B (create_matrix A.m B.n)).get i j
        = ((List.range A.n).map fun k => A.get i k * B.get k j).sum) := by
  constructor
  · intro rows cols _ _
    refine ⟨by simp [create_matrix], fun q hq => ?_, rfl⟩
    exact List.eq_of_mem_replicate hq
  · intro A B i j hi hj
    have h0 : (create_matrix A.m B.n).get i j = 0 := by
      unfold Matrix.get create_matrix
      rw [List.getD_eq_getElem?_getD, List.getElem?_replicate]
      split <;> rfl
    have hv := gemm_ikj_value A B (create_matrix A.m B.n) rfl rfl
      (by simp [create_matrix]) hi hj
    rw [hv, h0, zero_add]

/-- Witness for C10 at the concrete 2x2 example. -/
theorem create_matrix_zero_init_witness :
    (gemm_ikj exA exB (create_matrix exA.m exB.n)).get 1 0
      = ((List.range exA.n).map fun k => exA.get 1 k * exB.get k 0).sum :=
  create_matrix_zero_init.2 exA exB 1 0 (by decide) (by decide)

/- ================= store-level embedding (frame property) ============= -/

/-- The three matrices a GEMM kernel can touch through its pointers or
references: A and B are passed `const` (C++) or simply never written (C);
the store embedding makes the loop-body write explicit so that "only C is
mutated" is a theorem about the run, not a typing assumption. -/
structure GemmStore where
  A : Matrix
  B : Matrix
  C : Matrix

/-- The matrix and the two vectors a gaxpy kernel can touch. -/
structure GaxpyStore where
  A : Matrix
  x : List ℚ
  y : List ℚ

/-- `gemm_ijk` acting on the whole store: the single statement
`C(i,j) += A(i,k) * B(k,j)` reads A, B, C and writes C. -/
def gemm_ijk_st (s : GemmStore) : GemmStore :=
  (List.range s.A.m).foldl (fun t i =>
    (List.range s.B.n).foldl (fun t j =>
      (List.range s.A.n).foldl (fun t k =>
        ⟨t.A, t.B, t.C.set i j (t.C.get i j + t.A.get i k * t.B.get k j)⟩) t) t) s

/-- `gemm_jik` on the store. -/
def gemm_jik_st (s : GemmStore) : GemmStore :=
  (List.range s.B.n).foldl (fun t j =>
    (List.range s.A.m).foldl (fun t i =>
      (List.range s.A.n).foldl (fun t k =>
        ⟨t.A, t.B, t.C.set i j (t.C.get i j + t.A.get i k * t.B.get k j)⟩) t) t) s

/-- `gemm_ikj` on the store. -/
def gemm_ikj_st (s : GemmStore) : GemmStore :=
  (List.range s.A.m).foldl (fun t i =>
    (List.range s.A.n).foldl (fun t k =>
      (List.range s.B.n).foldl (fun t j =>
        ⟨t.A, t.B, t.C.set i j (t.C.get i j + t.A.get i k * t.B.get k j)⟩) t) t) s

/-- `gemm_jki` on the store. -/
def gemm_jki_st (s : GemmStore) : GemmStore :=
  (List.range s.B.n).foldl (fun t j =>
    (List.range s.A.n).foldl (fun t k =>
      (List.range s.A.m).foldl (fun t i =>
        ⟨t.A, t.B, t.C.set i j (t.C.get i j + t.A.get i k * t.B.get k j)⟩) t) t) s

/-- `gemm_kij` on the store. -/
def gemm_kij_st (s : GemmStore) : GemmStore :=
  (List.range s.A.n).foldl (fun t k =>
    (List.range s.A.m).foldl (fun t i =>
      (List.range s.B.n).foldl (fun t j =>
        ⟨t.A, t.B, t.C.set i j (t.C.get i j + t.A.get i k * t.B.get k j)⟩) t) t) s

/-- `gemm_kji` on the store. -/
def gemm_kji_st (s : GemmStore) : GemmStore :=
  (List.range s.A.n).foldl (fun t k =>
    (List.range s.B.n).foldl (fun t j =>
      (List.range s.A.m).foldl (fun t i =>
        ⟨t.A, t.B, t.C.set i j (t.C.get i j + t.A.get i k * t.B.get k j)⟩) t) t) s

/-- `gemm_blocked` on the store: the tile loops carry the whole store, the
innermost statement writes only C. -/
def gemm_blocked_st (s : GemmStore) (bs fuel : ℕ) : Option GemmStore :=
  forLoopM (fun t ii =>
      forLoopM (fun t jj =>
          forLoopM (fun t kk =>
              some ((List.range' ii (min (ii + bs) s.A.m - ii)).foldl (fun t i =>
                (List.range' kk (min (kk + bs) s.A.n - kk)).foldl (fun t k =>
                  (List.range' jj (min (jj + bs) s.B.n - jj)).foldl (fun t j =>
                    ⟨t.A, t.B, t.C.set i j
                      (t.C.get i j + t.A.get i k * t.B.get k j)⟩) t) t) t))
            fuel 0 s.A.n bs t)
        fuel 0 s.B.n bs t)
    fuel 0 s.A.m bs s

/-- `gaxpy_row_oriented` on the store: `y[i] += A(i,j) * x[j]` writes y
only. -/
def gaxpy_row_oriented_st (s : GaxpyStore) : GaxpyStore :=
  (List.range s.A.m).foldl (fun t i =>
    (List.range s.A.n).foldl (fun t j =>
      ⟨t.A, t.x, t.y.set i (t.y.getD i 0 + t.A.get i j * t.x.getD j 0)⟩) t) s

/-- `gaxpy_column_oriented` on the store. -/
def gaxpy_column_oriented_st (s : GaxpyStore) : GaxpyStore :=
  (List.range s.A.n).foldl (fun t j =>
    (List.range s.A.m).foldl (fun t i =>
      ⟨t.A, t.x, t.y.set i (t.y.getD i 0 + t.A.get i j * t.x.getD j 0)⟩) t) s

lemma gemm_ijk_st_eq (s : GemmStore) :
    gemm_ijk_st s = ⟨s.A, s.B, gemm_ijk s.A s.B s.C⟩ := by
  unfold gemm_ijk_st gemm_ijk
  refine List.foldl_hom (fun D => (⟨s.A, s.B, D⟩ : GemmStore)) _ _ _ s.C
    (fun x i => ?_)
  refine List.foldl_hom (fun D => (⟨s.A, s.B, D⟩ : GemmStore)) _ _ _ x
    (fun x' j => ?_)
  exact List.foldl_hom (fun D => (⟨s.A, s.B, D⟩ : GemmStore)) _ _ _ x'
    (fun x'' k => rfl)

lemma gemm_jik_st_eq (s : GemmStore) :
    gemm_jik_st s = ⟨s.A, s.B, gemm_jik s.A s.B s.C⟩ := by
  unfold gemm_jik_st gemm_jik
  refine List.foldl_hom (fun D => (⟨s.A, s.B, D⟩ : GemmStore)) _ _ _ s.C
    (fun x j => ?_)
  refine List.foldl_hom (fun D => (⟨s.A, s.B, D⟩ : GemmStore)) _ _ _ x
    (fun x' i => ?_)
  exact List.foldl_hom (fun D => (⟨s.A, s.B, D⟩ : GemmStore)) _ _ _ x'
    (fun x'' k => rfl)

lemma gemm_ikj_st_eq (s : GemmStore) :
    gemm_ikj_st s = ⟨s.A, s.B, gemm_ikj s.A s.B s.C⟩ := by
  unfold gemm_ikj_st gemm_ikj
  refine List.foldl_hom (fun D => (⟨s.A, s.B, D⟩ : GemmStore)) _ _ _ s.C
    (fun x i => ?_)
  refine List.foldl_hom (fun D => (⟨s.A, s.B, D⟩ : GemmStore)) _ _ _ x
    (fun x' k => ?_)
  exact List.foldl_hom (fun D => (⟨s.A, s.B, D⟩ : GemmStore)) _ _ _ x'
    (fun x'' j => rfl)

lemma gemm_jki_st_eq (s : GemmStore) :
    gemm_jki_st s = ⟨s.A, s.B, gemm_jki s.A s.B s.C⟩ := by
  unfold gemm_jki_st gemm_jki
  refine List.foldl_hom (fun D => (⟨s.A, s.B, D⟩ : GemmStore)) _ _ _ s.C
    (fun x j => ?_)
  refine List.foldl_hom (fun D => (⟨s.A, s.B, D⟩ : GemmStore)) _ _ _ x
    (fun x' k => ?_)
  exact List.foldl_hom (fun D => (⟨s.A, s.B, D⟩ : GemmStore)) _ _ _ x'
    (fun x'' i => rfl)

lemma gemm_kij_st_eq (s : GemmStore) :
    gemm_kij_st s = ⟨s.A, s.B, gemm_kij s.A s.B s.C⟩ := by
  unfold gemm_kij_st gemm_kij
  refine List.foldl_hom (fun D => (⟨s.A, s.B, D⟩ : GemmStore)) _ _ _ s.C
    (fun x k => ?_)
  refine List.foldl_hom (fun D => (⟨s.A, s.B, D⟩ : GemmStore)) _ _ _ x
    (fun x' i => ?_)
  exact List.foldl_hom (fun D => (⟨s.A, s.B, D⟩ : GemmStore)) _ _ _ x'
    (fun x'' j => rfl)

lemma gemm_kji_st_eq (s : GemmStore) :
    gemm_kji_st s = ⟨s.A, s.B, gemm_kji s.A s.B s.C⟩ := by
  unfold gemm_kji_st gemm_kji
  refine List.foldl_hom (fun D => (⟨s.A, s.B, D⟩ : GemmStore)) _ _ _ s.C
    (fun x k => ?_)
  refine List.foldl_hom (fun D => (⟨s.A, s.B, D⟩ : GemmStore)) _ _ _ x
    (fun x' j => ?_)
  exact List.foldl_hom (fun D => (⟨s.A, s.B, D⟩ : GemmStore)) _ _ _ x'
    (fun x'' i => rfl)

lemma gaxpy_row_st_eq (s : GaxpyStore) :
    gaxpy_row_oriented_st s = ⟨s.A, s.x, gaxpy_row_oriented s.A s.x s.y⟩ := by
  unfold gaxpy_row_oriented_st gaxpy_row_oriented
  refine List.foldl_hom (fun v => (⟨s.A, s.x, v⟩ : GaxpyStore)) _ _ _ s.y
    (fun x i => ?_)
  exact List.foldl_hom (fun v => (⟨s.A, s.x, v⟩ : GaxpyStore)) _ _ _ x
    (fun x' j => rfl)

lemma gaxpy_column_st_eq (s : GaxpyStore) :
    gaxpy_column_oriented_st s
      = ⟨s.A, s.x, gaxpy_column_oriented s.A s.x s.y⟩ := by
  unfold gaxpy_column_oriented_st gaxpy_column_oriented
  refine List.foldl_hom (fun v => (⟨s.A, s.x, v⟩ : GaxpyStore)) _ _ _ s.y
    (fun x j => ?_)
  exact List.foldl_hom (fun v => (⟨s.A, s.x, v⟩ : GaxpyStore)) _ _ _ x
    (fun x' i => rfl)

/-- A fuel-bounded loop commutes with an embedding of its state whenever
its bodies do. -/
lemma forLoopM_map {β γ : Type} (emb : γ → β) (bodyb : β → ℕ → Option β)
    (bodyg : γ → ℕ → Option γ)
    (h : ∀ c x, bodyb (emb c) x = (bodyg c x).map emb) :
    ∀ (fuel i bound step : ℕ) (c : γ),
      forLoopM bodyb fuel i bound step (emb c)
        = (forLoopM bodyg fuel i bound step c).map emb := by
  intro fuel
  induction fuel with
  | zero =>
    intro i bound step c
    simp only [forLoopM]
    split <;> rfl
  | succ fuel ih =>
    intro i bound step c
    simp only [forLoopM]
    split
    · rw [h c i]
      cases bodyg c i with
      | none => rfl
      | some c2 => exact ih _ _ _ c2
    · rfl

/-- The store run of the blocked kernel is the functional run on C with A
and B carried along unchanged (also when the fuel runs out). -/
lemma gemm_blocked_st_eq (s : GemmStore) (bs fuel : ℕ) :
    gemm_blocked_st s bs fuel
      = (gemm_blocked s.A s.B s.C bs fuel).map fun D => ⟨s.A, s.B, D⟩ := by
  unfold gemm_blocked_st gemm_blocked outer_block_outer_loop
  refine forLoopM_map (fun D => (⟨s.A, s.B, D⟩ : GemmStore)) _ _
    (fun c ii => ?_) fuel 0 s.A.m bs s.C
  unfold outer_block_middle_loop
  refine forLoopM_map (fun D => (⟨s.A, s.B, D⟩ : GemmStore)) _ _
    (fun c2 jj => ?_) fuel 0 s.B.n bs c
  unfold outer_block_inner_loop
  refine forLoopM_map (fun D => (⟨s.A, s.B, D⟩ : GemmStore)) _ _
    (fun c3 kk => ?_) fuel 0 s.A.n bs c2
  simp only [Option.map_some]
  congr 1
  unfold inner_block_outer_loop inner_block_middle_loop inner_block_inner_loop
  refine List.foldl_hom (fun D => (⟨s.A, s.B, D⟩ : GemmStore)) _ _ _ c3
    (fun x i => ?_)
  refine List.foldl_hom (fun D => (⟨s.A, s.B, D⟩ : GemmStore)) _ _ _ x
    (fun x' k => ?_)
  exact List.foldl_hom (fun D => (⟨s.A, s.B, D⟩ : GemmStore)) _ _ _ x'
    (fun x'' j => rfl)

/- ================= claim theorem: C8 ================================== -/

/-- C8: run on the store, every GEMM kernel (six orderings and the blocked
kernel) leaves A and B exactly as they were and mutates only C, producing
in C the functional result; likewise both gaxpy kernels leave A and x
unchanged and mutate only y. -/
theorem kernels_frame :
    (∀ s : GemmStore,
      (gemm_ijk_st s).A = s.A ∧ (gemm_ijk_st s).B = s.B ∧
      (gemm_ijk_st s).C = gemm_ijk s.A s.B s.C ∧
      (gemm_jik_st s).A = s.A ∧ (gemm_jik_st s).B = s.B ∧
      (gemm_jik_st s).C = gemm_jik s.A s.B s.C ∧
      (gemm_ikj_st s).A = s.A ∧ (gemm_ikj_st s).B = s.B ∧
      (gemm_ikj_st s).C = gemm_ikj s.A s.B s.C ∧
      (gemm_jki_st s).A = s.A ∧ (gemm_jki_st s).B = s.B ∧
      (gemm_jki_st s).C = gemm_jki s.A s.B s.C ∧
      (gemm_kij_st s).A = s.A ∧ (gemm_kij_st s).B = s.B ∧
      (gemm_kij_st s).C = gemm_kij s.A s.B s.C ∧
      (gemm_kji_st s).A = s.A ∧ (gemm_kji_st s).B = s.B ∧
      (gemm_kji_st s).C = gemm_kji s.A s.B s.C) ∧
    (∀ (s : GemmStore) (bs fuel : ℕ),
      gemm_blocked_st s bs fuel
        = (gemm_blocked s.A s.B s.C bs fuel).map fun D => ⟨s.A, s.B, D⟩) ∧
    (∀ s : GaxpyStore,
      (gaxpy_row_oriented_st s).A = s.A ∧ (gaxpy_row_oriented_st s).x = s.x ∧
      (gaxpy_row_oriented_st s).y = gaxpy_row_oriented s.A s.x s.y ∧
      (gaxpy_column_oriented_st s).A = s.A ∧
      (gaxpy_column_oriented_st s).x = s.x ∧
      (gaxpy_column_oriented_st s).y = gaxpy_column_oriented s.A s.x s.y) := by
  refine ⟨fun s => ?_, gemm_blocked_st_eq, fun s => ?_⟩
  · rw [gemm_ijk_st_eq, gemm_jik_st_eq, gemm_ikj_st_eq, gemm_jki_st_eq,
      gemm_kij_st_eq, gemm_kji_st_eq]
    exact ⟨rfl, rfl, rfl, rfl, rfl, rfl, rfl, rfl, rfl, rfl, rfl, rfl, rfl,
      rfl, rfl, rfl, rfl, rfl⟩
  · rw [gaxpy_row_st_eq, gaxpy_column_st_eq]
    exact ⟨rfl, rfl, rfl, rfl, rfl, rfl⟩

/- ================= bounds-checked embedding (safety) ================== -/

/-- Bounds-checked element read: `none` exactly when (i,j) is outside
`0 <= i < m`, `0 <= j < n` (the branch the C/C++ code would enter as an
out-of-bounds buffer access). -/
def Matrix.get? (A : Matrix) (i j : ℕ) : Option ℚ :=
  if i < A.m ∧ j < A.n then some (A.get i j) else none

/-- Bounds-checked element write. -/
def Matrix.set? (A : Matrix) (i j : ℕ) (v : ℚ) : Option Matrix :=
  if i < A.m ∧ j < A.n then some (A.set i j v) else none

/-- Bounds-checked vector read. -/
def vecGet? (v : List ℚ) (i : ℕ) : Option ℚ :=
  if i < v.length then some (v.getD i 0) else none

/-- Bounds-checked vector write. -/
def vecSet? (v : List ℚ) (i : ℕ) (q : ℚ) : Option (List ℚ) :=
  if i < v.length then some (v.set i q) else none

/-- The checked multiply-accumulate `C(i,j) += A(i,k) * B(k,j)`: every
read and the write go through the checked accessors. -/
def updChk (A B C : Matrix) (t : ℕ × ℕ × ℕ) : Option Matrix := do
  let a ← A.get? t.1 t.2.1
  let b ← B.get? t.2.1 t.2.2
  let c ← C.get? t.1 t.2.2
  C.set? t.1 t.2.2 (c + a * b)

/-- The checked gaxpy update `y[i] += A(i,j) * x[j]`. -/
def updVChk (A : Matrix) (x : List ℚ) (y : List ℚ) (t : ℕ × ℕ) :
    Option (List ℚ) := do
  let a ← A.get? t.1 t.2
  let xv ← vecGet? x t.2
  let yv ← vecGet? y t.1
  vecSet? y t.1 (yv + a * xv)

/-- `gemm_ijk` with every element access checked. -/
def gemm_ijk_chk (A B C : Matrix) : Option Matrix :=
  (List.range A.m).foldlM (fun C i =>
    (List.range B.n).foldlM (fun C j =>
      (List.range A.n).foldlM (fun C k => updChk A B C (i, k, j)) C) C) C

/-- `gemm_jik` with every element access checked. -/
def gemm_jik_chk (A B C : Matrix) : Option Matrix :=
  (List.range B.n).foldlM (fun C j =>
    (List.range A.m).foldlM (fun C i =>
      (List.range A.n).foldlM (fun C k => updChk A B C (i, k, j)) C) C) C

/-- `gemm_ikj` with every element access checked. -/
def gemm_ikj_chk (A B C : Matrix) : Option Matrix :=
  (List.range A.m).foldlM (fun C i =>
    (List.range A.n).foldlM (fun C k =>
      (List.range B.n).foldlM (fun C j => updChk A B C (i, k, j)) C) C) C

/-- `gemm_jki` with every element access checked. -/
def gemm_jki_chk (A B C : Matrix) : Option Matrix :=
  (List.range B.n).foldlM (fun C j =>
    (List.range A.n).foldlM (fun C k =>
      (List.range A.m).foldlM (fun C i => updChk A B C (i, k, j)) C) C) C

/-- `gemm_kij` with every element access checked. -/
def gemm_kij_chk (A B C : Matrix) : Option Matrix :=
  (List.range A.n).foldlM (fun C k =>
    (List.range A.m).foldlM (fun C i =>
      (List.range B.n).foldlM (fun C j => updChk A B C (i, k, j)) C) C) C

/-- `gemm_kji` with every element access checked. -/
def gemm_kji_chk (A B C : Matrix) : Option Matrix :=
  (List.range A.n).foldlM (fun C k =>
    (List.range B.n).foldlM (fun C j =>
      (List.range A.m).foldlM (fun C i => updChk A B C (i, k, j)) C) C) C

/-- The blocked kernel's inner three loops with checked accesses. -/
def inner_block_outer_loop_chk (A B C : Matrix)
    (ii kk jj i_max j_max k_max : ℕ) : Option Matrix :=
  (List.range' ii (i_max - ii)).foldlM (fun C i =>
    (List.range' kk (k_max - kk)).foldlM (fun C k =>
      (List.range' jj (j_max - jj)).foldlM (fun C j =>
        updChk A B C (i, k, j)) C) C) C

/-- The blocked kernel's tile loops with checked accesses. -/
def gemm_blocked_chk (A B C : Matrix) (bs fuel : ℕ) : Option Matrix :=
  forLoopM (fun C ii =>
      forLoopM (fun C jj =>
          forLoopM (fun C kk =>
              inner_block_outer_loop_chk A B C ii kk jj
                (min (ii + bs) A.m) (min (jj + bs) B.n) (min (kk + bs) A.n))
            fuel 0 A.n bs C)
        fuel 0 B.n bs C)
    fuel 0 A.m bs C

/-- Row-oriented gaxpy with every access checked. -/
def gaxpy_row_oriented_chk (A : Matrix) (x y : List ℚ) : Option (List ℚ) :=
  (List.range A.m).foldlM (fun y i =>
    (List.range A.n).foldlM (fun y j => updVChk A x y (i, j)) y) y

/-- Column-oriented gaxpy with every access checked. -/
def gaxpy_column_oriented_chk (A : Matrix) (x y : List ℚ) : Option (List ℚ) :=
  (List.range A.n).foldlM (fun y j =>
    (List.range A.m).foldlM (fun y i => updVChk A x y (i, j)) y) y

lemma foldlM_flatMap {α β γ : Type} (f : β → γ → Option β) (g : α → List γ)
    (l : List α) : ∀ b : β,
    (l.flatMap g).foldlM f b = l.foldlM (fun b a => (g a).foldlM f b) b := by
  induction l with
  | nil => intro b; rfl
  | cons x xs ih =>
    intro b
    rw [List.flatMap_cons, List.foldlM_append, List.foldlM_cons]
    cases h : (g x).foldlM f b with
    | none => rfl
    | some b2 => exact ih b2

/-- All six matrix accesses of one multiply-accumulate step are legal. -/
def inRange (A B C : Matrix) (t : ℕ × ℕ × ℕ) : Prop :=
  t.1 < A.m ∧ t.2.1 < A.n ∧ t.2.1 < B.m ∧ t.2.2 < B.n ∧
  t.1 < C.m ∧ t.2.2 < C.n

lemma updChk_eq_upd (A B C : Matrix) (t : ℕ × ℕ × ℕ) (h : inRange A B C t) :
    updChk A B C t = some (upd A B C t) := by
  obtain ⟨h1, h2, h3, h4, h5, h6⟩ := h
  simp [updChk, upd, Matrix.get?, Matrix.set?, h1, h2, h3, h4, h5, h6]

lemma foldlM_updChk_eq (A B : Matrix) :
    ∀ (L : List (ℕ × ℕ × ℕ)) (C : Matrix), (∀ t ∈ L, inRange A B C t) →
      L.foldlM (updChk A B) C = some (L.foldl (upd A B) C) := by
  intro L
  induction L with
  | nil => intro C _; rfl
  | cons t L ih =>
    intro C hL
    rw [List.foldlM_cons, updChk_eq_upd A B C t (hL t (List.mem_cons_self t L)),
      List.foldl_cons]
    exact ih (upd A B C t) fun t' ht' => by
      obtain ⟨a1, a2, a3, a4, a5, a6⟩ := hL t' (List.mem_cons_of_mem t ht')
      exact ⟨a1, a2, a3, a4, by simpa using a5, by simpa using a6⟩

lemma mem_trIKJ_bounds {m r n : ℕ} {t : ℕ × ℕ × ℕ} (ht : t ∈ trIKJ m r n) :
    t.1 < m ∧ t.2.1 < r ∧ t.2.2 < n := by
  unfold trIKJ at ht
  rw [List.mem_flatMap] at ht
  obtain ⟨i, hi, ht⟩ := ht
  rw [List.mem_flatMap] at ht
  obtain ⟨k, hk, ht⟩ := ht
  rw [List.mem_map] at ht
  obtain ⟨j, hj, rfl⟩ := ht
  rw [List.mem_range] at hi hk hj
  exact ⟨hi, hk, hj⟩

lemma gemm_ijk_chk_eq (A B C : Matrix) (hm : C.m = A.m) (hn : C.n = B.n)
    (hr : B.m = A.n) : gemm_ijk_chk A B C = some (gemm_ijk A B C) := by
  have hform : gemm_ijk_chk A B C
      = (trIJK A.m A.n B.n).foldlM (updChk A B) C := by
    simp [gemm_ijk_chk, trIJK, foldlM_flatMap, List.foldlM_map]
  have hbounds : ∀ t ∈ trIJK A.m A.n B.n, inRange A B C t := by
    intro t ht
    have hb := mem_trIKJ_bounds ((trIJK_perm_trIKJ A.m A.n B.n).mem_iff.mp ht)
    exact ⟨hb.1, hb.2.1, by omega, hb.2.2, by omega, by omega⟩
  rw [hform, foldlM_updChk_eq A B _ C hbounds, gemm_ijk_eq_foldl]

lemma gemm_jik_chk_eq (A B C : Matrix) (hm : C.m = A.m) (hn : C.n = B.n)
    (hr : B.m = A.n) : gemm_jik_chk A B C = some (gemm_jik A B C) := by
  have hform : gemm_jik_chk A B C
      = (trJIK A.m A.n B.n).foldlM (updChk A B) C := by
    simp [gemm_jik_chk, trJIK, foldlM_flatMap, List.foldlM_map]
  have hbounds : ∀ t ∈ trJIK A.m A.n B.n, inRange A B C t := by
    intro t ht
    have hb := mem_trIKJ_bounds ((trJIK_perm_trIKJ A.m A.n B.n).mem_iff.mp ht)
    exact ⟨hb.1, hb.2.1, by omega, hb.2.2, by omega, by omega⟩
  rw [hform, foldlM_updChk_eq A B _ C hbounds, gemm_jik_eq_foldl]

lemma gemm_ikj_chk_eq (A B C : Matrix) (hm : C.m = A.m) (hn : C.n = B.n)
    (hr : B.m = A.n) : gemm_ikj_chk A B C = some (gemm_ikj A B C) := by
  have hform : gemm_ikj_chk A B C
      = (trIKJ A.m A.n B.n).foldlM (updChk A B) C := by
    simp [gemm_ikj_chk, trIKJ, foldlM_flatMap, List.foldlM_map]
  have hbounds : ∀ t ∈ trIKJ A.m A.n B.n, inRange A B C t := by
    intro t ht
    have hb := mem_trIKJ_bounds ht
    exact ⟨hb.1, hb.2.1, by omega, hb.2.2, by omega, by omega⟩
  rw [hform, foldlM_updChk_eq A B _ C hbounds, gemm_ikj_eq_foldl]

lemma gemm_jki_chk_eq (A B C : Matrix) (hm : C.m = A.m) (hn : C.n = B.n)
    (hr : B.m = A.n) : gemm_jki_chk A B C = some (gemm_jki A B C) := by
  have hform : gemm_jki_chk A B C
      = (trJKI A.m A.n B.n).foldlM (updChk A B) C := by
    simp [gemm_jki_chk, trJKI, foldlM_flatMap, List.foldlM_map]
  have hbounds : ∀ t ∈ trJKI A.m A.n B.n, inRange A B C t := by
    intro t ht
    have hb := mem_trIKJ_bounds ((trJKI_perm_trIKJ A.m A.n B.n).mem_iff.mp ht)
    exact ⟨hb.1, hb.2.1, by omega, hb.2.2, by omega, by omega⟩
  rw [hform, foldlM_updChk_eq A B _ C hbounds, gemm_jki_eq_foldl]

lemma gemm_kij_chk_eq (A B C : Matrix) (hm : C.m = A.m) (hn : C.n = B.n)
    (hr : B.m = A.n) : gemm_kij_chk A B C = some (gemm_kij A B C) := by
  have hform : gemm_kij_chk A B C
      = (trKIJ A.m A.n B.n).foldlM (updChk A B) C := by
    simp [gemm_kij_chk, trKIJ, foldlM_flatMap, List.foldlM_map]
  have hbounds : ∀ t ∈ trKIJ A.m A.n B.n, inRange A B C t := by
    intro t ht
    have hb := mem_trIKJ_bounds ((trKIJ_perm_trIKJ A.m A.n B.n).mem_iff.mp ht)
    exact ⟨hb.1, hb.2.1, by omega, hb.2.2, by omega, by omega⟩
  rw [hform, foldlM_updChk_eq A B _ C hbounds, gemm_kij_eq_foldl]

lemma gemm_kji_chk_eq (A B C : Matrix) (hm : C.m = A.m) (hn : C.n = B.n)
    (hr : B.m = A.n) : gemm_kji_chk A B C = some (gemm_kji A B C) := by
  have hform : gemm_kji_chk A B C
      = (trKJI A.m A.n B.n).foldlM (updChk A B) C := by
    simp [gemm_kji_chk, trKJI, foldlM_flatMap, List.foldlM_map]
  have hbounds : ∀ t ∈ trKJI A.m A.n B.n, inRange A B C t := by
    intro t ht
    have hb := mem_trIKJ_bounds ((trKJI_perm_trIKJ A.m A.n B.n).mem_iff.mp ht)
    exact ⟨hb.1, hb.2.1, by omega, hb.2.2, by omega, by omega⟩
  rw [hform, foldlM_updChk_eq A B _ C hbounds, gemm_kji_eq_foldl]

/-- All accesses of one gaxpy step are legal. -/
def inRangeV (A : Matrix) (x y : List ℚ) (t : ℕ × ℕ) : Prop :=
  t.1 < A.m ∧ t.2 < A.n ∧ t.2 < x.length ∧ t.1 < y.length

lemma updVChk_eq_updV (A : Matrix) (x y : List ℚ) (t : ℕ × ℕ)
    (h : inRangeV A x y t) : updVChk A x y t = some (updV A x y t) := by
  obtain ⟨h1, h2, h3, h4⟩ := h
  simp [updVChk, updV, Matrix.get?, vecGet?, vecSet?, h1, h2, h3, h4]

lemma foldlM_updVChk_eq (A : Matrix) (x : List ℚ) :
    ∀ (L : List (ℕ × ℕ)) (y : List ℚ), (∀ t ∈ L, inRangeV A x y t) →
      L.foldlM (updVChk A x) y = some (L.foldl (updV A x) y) := by
  intro L
  induction L with
  | nil => intro y _; rfl
  | cons t L ih =>
    intro y hL
    rw [List.foldlM_cons,
      updVChk_eq_updV A x y t (hL t (List.mem_cons_self t L)), List.foldl_cons]
    exact ih (updV A x y t) fun t' ht' => by
      obtain ⟨a1, a2, a3, a4⟩ := hL t' (List.mem_cons_of_mem t ht')
      exact ⟨a1, a2, a3, by simpa [updV] using a4⟩

lemma mem_prRC_bounds {m n : ℕ} {t : ℕ × ℕ} (ht : t ∈ prRC m n) :
    t.1 < m ∧ t.2 < n := by
  unfold prRC at ht
  rw [List.mem_flatMap] at ht
  obtain ⟨i, hi, ht⟩ := ht
  rw [List.mem_map] at ht
  obtain ⟨j, hj, rfl⟩ := ht
  rw [List.mem_range] at hi hj
  exact ⟨hi, hj⟩

lemma gaxpy_row_chk_eq (A : Matrix) (x y : List ℚ) (hx : x.length = A.n)
    (hy : y.length = A.m) :
    gaxpy_row_oriented_chk A x y = some (gaxpy_row_oriented A x y) := by
  have hform : gaxpy_row_oriented_chk A x y
      = (prRC A.m A.n).foldlM (updVChk A x) y := by
    simp [gaxpy_row_oriented_chk, prRC, foldlM_flatMap, List.foldlM_map]
  have hbounds : ∀ t ∈ prRC A.m A.n, inRangeV A x y t := by
    intro t ht
    have hb := mem_prRC_bounds ht
    exact ⟨hb.1, hb.2, by omega, by omega⟩
  rw [hform, foldlM_updVChk_eq A x _ y hbounds, gaxpy_row_eq_foldl]

lemma gaxpy_column_chk_eq (A : Matrix) (x y : List ℚ) (hx : x.length = A.n)
    (hy : y.length = A.m) :
    gaxpy_column_oriented_chk A x y = some (gaxpy_column_oriented A x y) := by
  have hform : gaxpy_column_oriented_chk A x y
      = (prCR A.m A.n).foldlM (updVChk A x) y := by
    simp [gaxpy_column_oriented_chk, prCR, foldlM_flatMap, List.foldlM_map]
  have hbounds : ∀ t ∈ prCR A.m A.n, inRangeV A x y t := by
    intro t ht
    have hb := mem_prRC_bounds ((prRC_perm_prCR A.m A.n).mem_iff.mpr ht)
    exact ⟨hb.1, hb.2, by omega, by omega⟩
  rw [hform, foldlM_updVChk_eq A x _ y hbounds, gaxpy_column_eq_foldl]

/-- forLoopM_pure with an invariant carried by the accumulator. -/
lemma forLoopM_pure_P {α : Type} (P : α → Prop) (body : α → ℕ → Option α)
    (g : α → ℕ → α)
    (hbody : ∀ a x, P a → body a x = some (g a x) ∧ P (g a x))
    {step bound : ℕ} (hstep : 0 < step) :
    ∀ (fuel i : ℕ) (acc : α), bound - i ≤ fuel → P acc →
      forLoopM body fuel i bound step acc
        = some ((tileStarts step bound i).foldl g acc) ∧
      P ((tileStarts step bound i).foldl g acc) := by
  intro fuel
  induction fuel with
  | zero =>
    intro i acc hf hP
    have hni : ¬ i < bound := by omega
    rw [tileStarts_eq, dif_neg (by omega), List.foldl_nil]
    exact ⟨by simp [forLoopM, hni], hP⟩
  | succ fuel ih =>
    intro i acc hf hP
    by_cases hib : i < bound
    · obtain ⟨hb1, hb2⟩ := hbody acc i hP
      rw [tileStarts_eq, dif_pos ⟨hstep, hib⟩, List.foldl_cons]
      have hrec := ih (i + step) (g acc i) (by omega) hb2
      refine ⟨?_, hrec.2⟩
      simp only [forLoopM, if_pos hib, hb1]
      exact hrec.1
    · rw [tileStarts_eq, dif_neg (by omega), List.foldl_nil]
      exact ⟨by simp [forLoopM, hib], hP⟩

lemma inner_block_outer_m (A B C' : Matrix) (ii kk jj i_max j_max k_max : ℕ) :
    (inner_block_outer_loop A B C' ii kk jj i_max j_max k_max).m = C'.m := by
  rw [inner_block_outer_eq]
  exact foldl_upd_m A B _ C'

lemma inner_block_outer_n (A B C' : Matrix) (ii kk jj i_max j_max k_max : ℕ) :
    (inner_block_outer_loop A B C' ii kk jj i_max j_max k_max).n = C'.n := by
  rw [inner_block_outer_eq]
  exact foldl_upd_n A B _ C'

/-- Under the clamped tile bounds every access of the inner block loops is
legal, so the checked inner loops succeed with the unchecked result. -/
lemma inner_block_outer_chk_eq (A B C' : Matrix)
    (ii kk jj i_max j_max k_max : ℕ)
    (hiA : i_max ≤ A.m) (hiC : i_max ≤ C'.m)
    (hkA : k_max ≤ A.n) (hkB : k_max ≤ B.m)
    (hjB : j_max ≤ B.n) (hjC : j_max ≤ C'.n) :
    inner_block_outer_loop_chk A B C' ii kk jj i_max j_max k_max
      = some (inner_block_outer_loop A B C' ii kk jj i_max j_max k_max) := by
  have hform : inner_block_outer_loop_chk A B C' ii kk jj i_max j_max k_max
      = ((List.range' ii (i_max - ii)).flatMap fun i =>
          (List.range' kk (k_max - kk)).flatMap fun k =>
            (List.range' jj (j_max - jj)).map fun j =>
              ((i, k, j) : ℕ × ℕ × ℕ)).foldlM (updChk A B) C' := by
    simp [inner_block_outer_loop_chk, foldlM_flatMap, List.foldlM_map]
  have hbounds : ∀ t ∈ (List.range' ii (i_max - ii)).flatMap fun i =>
      (List.range' kk (k_max - kk)).flatMap fun k =>
        (List.range' jj (j_max - jj)).map fun j => ((i, k, j) : ℕ × ℕ × ℕ),
      inRange A B C' t := by
    intro t ht
    rw [List.mem_flatMap] at ht
    obtain ⟨i, hi, ht⟩ := ht
    rw [List.mem_flatMap] at ht
    obtain ⟨k, hk, ht⟩ := ht
    rw [List.mem_map] at ht
    obtain ⟨j, hj, rfl⟩ := ht
    rw [List.mem_range'_1] at hi hk hj
    unfold inRange
    refine ⟨?_, ?_, ?_, ?_, ?_, ?_⟩ <;> (dsimp only; omega)
  rw [hform, foldlM_updChk_eq A B _ C' hbounds, inner_block_outer_eq]

/-- The checked blocked kernel succeeds (with the naive result) whenever
the dimensions agree, the block size is positive and the fuel suffices:
the min-clamped tile bounds keep every access within m, n, r. -/
lemma gemm_blocked_chk_eq (A B C : Matrix) (hm : C.m = A.m) (hn : C.n = B.n)
    (hr : B.m = A.n) (bs fuel : ℕ) (hs : 1 ≤ bs)
    (hmf : A.m ≤ fuel) (hnf : B.n ≤ fuel) (hrf : A.n ≤ fuel) :
    gemm_blocked_chk A B C bs fuel = some (gemm_ikj A B C) := by
  have hkk : ∀ (ii jj : ℕ) (a : Matrix), a.m = C.m ∧ a.n = C.n →
      ∀ kk : ℕ,
      inner_block_outer_loop_chk A B a ii kk jj
          (min (ii + bs) A.m) (min (jj + bs) B.n) (min (kk + bs) A.n)
        = some (inner_block_outer_loop A B a ii kk jj
            (min (ii + bs) A.m) (min (jj + bs) B.n) (min (kk + bs) A.n)) ∧
      (inner_block_outer_loop A B a ii kk jj
          (min (ii + bs) A.m) (min (jj + bs) B.n) (min (kk + bs) A.n)).m = C.m ∧
      (inner_block_outer_loop A B a ii kk jj
          (min (ii + bs) A.m) (min (jj + bs) B.n) (min (kk + bs) A.n)).n = C.n := by
    intro ii jj a hPa kk
    obtain ⟨ham, han⟩ := hPa
    refine ⟨inner_block_outer_chk_eq A B a ii kk jj _ _ _
      (min_le_right _ _) (by omega) (min_le_right _ _) (by omega)
      (min_le_right _ _) (by omega), ?_, ?_⟩
    · rw [inner_block_outer_m]; exact ham
    · rw [inner_block_outer_n]; exact han
  have hlevel2 : ∀ (ii jj : ℕ) (a : Matrix), a.m = C.m ∧ a.n = C.n →
      (forLoopM (fun C' kk =>
          inner_block_outer_loop_chk A B C' ii kk jj
            (min (ii + bs) A.m) (min (jj + bs) B.n) (min (kk + bs) A.n))
        fuel 0 A.n bs a)
        = some ((tileStarts bs A.n 0).foldl (fun C' kk =>
            inner_block_outer_loop A B C' ii kk jj
              (min (ii + bs) A.m) (min (jj + bs) B.n) (min (kk + bs) A.n)) a) ∧
      ((tileStarts bs A.n 0).foldl (fun C' kk =>
          inner_block_outer_loop A B C' ii kk jj
            (min (ii + bs) A.m) (min (jj + bs) B.n) (min (kk + bs) A.n)) a).m
        = C.m ∧
      ((tileStarts bs A.n 0).foldl (fun C' kk =>
          inner_block_outer_loop A B C' ii kk jj
            (min (ii + bs) A.m) (min (jj + bs) B.n) (min (kk + bs) A.n)) a).n
        = C.n := by
    intro ii jj a hPa
    have h := forLoopM_pure_P (fun a => a.m = C.m ∧ a.n = C.n) _ _
      (fun a2 kk hP2 => ⟨(hkk ii jj a2 hP2 kk).1,
        (hkk ii jj a2 hP2 kk).2.1, (hkk ii jj a2 hP2 kk).2.2⟩)
      hs fuel 0 a (show A.n - 0 ≤ fuel by omega) hPa
    exact ⟨h.1, h.2.1, h.2.2⟩
  have hlevel1 : ∀ (ii : ℕ) (a : Matrix), a.m = C.m ∧ a.n = C.n →
      (forLoopM (fun C' jj =>
          forLoopM (fun C'' kk =>
              inner_block_outer_loop_chk A B C'' ii kk jj
                (min (ii + bs) A.m) (min (jj + bs) B.n) (min (kk + bs) A.n))
            fuel 0 A.n bs C')
        fuel 0 B.n bs a)
        = some ((tileStarts bs B.n 0).foldl (fun C' jj =>
            (tileStarts bs A.n 0).foldl (fun C'' kk =>
              inner_block_outer_loop A B C'' ii kk jj
                (min (ii + bs) A.m) (min (jj + bs) B.n) (min (kk + bs) A.n))
              C') a) ∧
      ((tileStarts bs B.n 0).foldl (fun C' jj =>
          (tileStarts bs A.n 0).foldl (fun C'' kk =>
            inner_block_outer_loop A B C'' ii kk jj
              (min (ii + bs) A.m) (min (jj + bs) B.n) (min (kk + bs) A.n))
            C') a).m = C.m ∧
      ((tileStarts bs B.n 0).foldl (fun C' jj =>
          (tileStarts bs A.n 0).foldl (fun C'' kk =>
            inner_block_outer_loop A B C'' ii kk jj
              (min (ii + bs) A.m) (min (jj + bs) B.n) (min (kk + bs) A.n))
            C') a).n = C.n := by
    intro ii a hPa
    have h := forLoopM_pure_P (fun a => a.m = C.m ∧ a.n = C.n) _ _
      (fun a2 jj hP2 => ⟨(hlevel2 ii jj a2 hP2).1,
        (hlevel2 ii jj a2 hP2).2.1, (hlevel2 ii jj a2 hP2).2.2⟩)
      hs fuel 0 a (show B.n - 0 ≤ fuel by omega) hPa
    exact ⟨h.1, h.2.1, h.2.2⟩
  have hlevel0 := forLoopM_pure_P (fun a : Matrix => a.m = C.m ∧ a.n = C.n) _ _
    (fun a ii hPa => ⟨(hlevel1 ii a hPa).1,
      (hlevel1 ii a hPa).2.1, (hlevel1 ii a hPa).2.2⟩)
    hs fuel 0 C (show A.m - 0 ≤ fuel by omega) ⟨rfl, rfl⟩
  have hchk : gemm_blocked_chk A B C bs fuel
      = some ((tileStarts bs A.m 0).foldl (fun C' ii =>
          (tileStarts bs B.n 0).foldl (fun C'' jj =>
            (tileStarts bs A.n 0).foldl (fun C''' kk =>
              inner_block_outer_loop A B C''' ii kk jj
                (min (ii + bs) A.m) (min (jj + bs) B.n) (min (kk + bs) A.n))
              C'') C') C) := hlevel0.1
  have hunchk : gemm_blocked A B C bs fuel
      = some ((tileStarts bs A.m 0).foldl (fun C' ii =>
          (tileStarts bs B.n 0).foldl (fun C'' jj =>
            (tileStarts bs A.n 0).foldl (fun C''' kk =>
              inner_block_outer_loop A B C''' ii kk jj
                (min (ii + bs) A.m) (min (jj + bs) B.n) (min (kk + bs) A.n))
              C'') C') C) :=
    outer_block_outer_eq A B C bs A.m B.n A.n fuel hs hrf hnf hmf
  rw [hchk, ← hunchk]
  exact gemm_blocked_eq_ikj A B C bs fuel hs hmf hnf hrf

/- ================= claim theorem: C5 ================================== -/

/-- C5: under the dimension preconditions every element access of every
GEMM kernel (six orderings and the blocked kernel, whose min-clamped tile
bounds keep i, j, k below m, n, r) and of both gaxpy kernels is in bounds:
the bounds-checked embeddings never hit the out-of-range branch and return
exactly the unchecked results. -/
theorem kernels_bounds_safe :
    ∀ A B C : Matrix, C.m = A.m → C.n = B.n → B.m = A.n →
      (gemm_ijk_chk A B C = some (gemm_ijk A B C) ∧
       gemm_jik_chk A B C = some (gemm_jik A B C) ∧
       gemm_ikj_chk A B C = some (gemm_ikj A B C) ∧
       gemm_jki_chk A B C = some (gemm_jki A B C) ∧
       gemm_kij_chk A B C = some (gemm_kij A B C) ∧
       gemm_kji_chk A B C = some (gemm_kji A B C)) ∧
      (∀ bs fuel : ℕ, 1 ≤ bs → A.m ≤ fuel → B.n ≤ fuel → A.n ≤ fuel →
        gemm_blocked_chk A B C bs fuel = some (gemm_ikj A B C) ∧
        gemm_blocked_chk A B C bs fuel = gemm_blocked A B C bs fuel) ∧
      (∀ x y : List ℚ, x.length = A.n → y.length = A.m →
        gaxpy_row_oriented_chk A x y = some (gaxpy_row_oriented A x y) ∧
        gaxpy_column_oriented_chk A x y
          = some (gaxpy_column_oriented A x y)) := by
  intro A B C hm hn hr
  refine ⟨⟨gemm_ijk_chk_eq A B C hm hn hr, gemm_jik_chk_eq A B C hm hn hr,
    gemm_ikj_chk_eq A B C hm hn hr, gemm_jki_chk_eq A B C hm hn hr,
    gemm_kij_chk_eq A B C hm hn hr, gemm_kji_chk_eq A B C hm hn hr⟩,
    fun bs fuel hs hmf hnf hrf => ?_,
    fun x y hx hy => ⟨gaxpy_row_chk_eq A x y hx hy,
      gaxpy_column_chk_eq A x y hx hy⟩⟩
  refine ⟨gemm_blocked_chk_eq A B C hm hn hr bs fuel hs hmf hnf hrf, ?_⟩
  rw [gemm_blocked_chk_eq A B C hm hn hr bs fuel hs hmf hnf hrf,
    gemm_blocked_eq_ikj A B C bs fuel hs hmf hnf hrf]

/-- Witness for C5 at the concrete 2x2 example. -/
theorem kernels_bounds_safe_witness :
    gemm_ikj_chk exA exB exC = some (gemm_ikj exA exB exC) :=
  (kernels_bounds_safe exA exB exC rfl rfl rfl).1.2.2.1

end MC
